import Mathlib

/-!
# Dominant colour extraction (src/ffi/color_extractor.c)

A shallow embedding of the C translation unit and the properties proved about it.

Conventions of the embedding.

* A C array is the list of the elements stored in it.  A read or a write outside an array,
  a read of an element that was never stored, or an access through a null pointer has no
  defined result in C and makes the embedded function return none.
* int is a 32-bit wrapping integer: a value is an Int, and every int
  multiplication or addition of the source that can leave the range is reduced by wrap32.
  The quotient of two ints is Int.tdiv (C division truncates towards zero).
* uint8_t values are naturals; a store into a uint8_t field reduces modulo 256 (toU8).
* long is wide enough for the sums the source forms in it, so long arithmetic is exact.
* An array that malloc returns holds no stored element.  free(p) reads the pointer p, so a
  free of an array entry that was never stored has no defined result either.  Apart from
  that, storage is the list it holds: realloc and the frees of stored pointers change no
  value.
-/

namespace ColorExtractor

/-! ## Data model -/

/-- An RGB colour: struct RGB of the source, three uint8_t channels. -/
structure RGB where
  r : Nat
  g : Nat
  b : Nat
deriving DecidableEq

/-- An output colour: struct Color of the source and of the header, three uint8_t channels. -/
structure Color where
  r : Nat
  g : Nat
  b : Nat
deriving DecidableEq

/-- Reduction of an integer to the range of a 32-bit signed int (wrap-around on overflow). -/
def wrap32 (x : Int) : Int := (x + 2147483648) % 4294967296 - 2147483648

/-- Conversion of an integer to uint8_t on a store. -/
def toU8 (x : Int) : Nat := (x % 256).toNat

/-! ## compareRGB, colorDistance, quantizeColor -/

/-- compareRGB of the source: the difference of the first channel that differs, in the
order r, g, b (the uint8_t operands are promoted to int, so the difference is exact). -/
def compareRGB (a b : RGB) : Int :=
  if a.r ≠ b.r then (a.r : Int) - (b.r : Int)
  else if a.g ≠ b.g then (a.g : Int) - (b.g : Int)
  else (a.b : Int) - (b.b : Int)

/-- The radicand of colorDistance: the source computes r*r + g*g + b*b in long and returns
its square root as a double.  On the integers 0 .. 3*255*255 the correctly rounded square
root is strictly increasing, so the comparisons (less than, equal) that the source makes
between two distances are the same comparisons between their radicands; the embedding
carries the radicand. -/
def colorDistance (c1 c2 : RGB) : Int :=
  let r : Int := (c1.r : Int) - (c2.r : Int)
  let g : Int := (c1.g : Int) - (c2.g : Int)
  let b : Int := (c1.b : Int) - (c2.b : Int)
  r * r + g * g + b * b

/-- One channel of quantizeColor: (channel * levels / 256) * (256 / levels), computed in
int and stored into a uint8_t. -/
def quantizeChannel (c : Nat) (levels : Int) : Nat :=
  toU8 (wrap32 (Int.tdiv (wrap32 ((c : Int) * levels)) 256 * Int.tdiv 256 levels))

/-- quantizeColor of the source; the result is returned instead of written through a
pointer. -/
def quantizeColor (color : RGB) (levels : Int) : RGB :=
  { r := quantizeChannel color.r levels
    g := quantizeChannel color.g levels
    b := quantizeChannel color.b levels }

/-! ## kMeansClustering -/

/-- The order qsort is given: a comes no later than b when compareRGB a b is not positive. -/
def rgbLe (a b : RGB) : Prop := compareRGB a b ≤ 0

instance rgbLeDecidable : DecidableRel rgbLe := fun a b =>
  inferInstanceAs (Decidable (compareRGB a b ≤ 0))

/-- The C library qsort with comparator compareRGB, by its contract: the array is
rearranged into non-decreasing order of the comparator.  (compareRGB is zero only on equal
colours, so every correct sort gives this same list.) -/
def qsort (xs : List RGB) : List RGB := xs.insertionSort rgbLe

/-- Read of pixels at an int index; none outside the array. -/
def readRGB (pixels : List RGB) (idx : Int) : Option RGB :=
  if 0 ≤ idx then pixels[idx.toNat]? else none

/-- The index i * pixelCount / k of the seeding loop, in int arithmetic. -/
def seedIndex (i pixelCount k : Int) : Int :=
  Int.tdiv (wrap32 (i * pixelCount)) k

/-- The seeding loop, for (i = i; i < k; ++i) centroids[i] = pixels[i * pixelCount / k],
with n = k - i iterations left; the centroids from index i on. -/
def seedLoop (pixels : List RGB) (pixelCount k : Int) : Nat → Int → Option (List RGB)
  | 0, _ => some []
  | n + 1, i =>
    match readRGB pixels (seedIndex i pixelCount k) with
    | none => none
    | some c =>
      match seedLoop pixels pixelCount k n (i + 1) with
      | none => none
      | some cs => some (c :: cs)

/-- The state of the nearest-centroid search: minDistance (none is DBL_MAX, which is
above every distance) and closestCentroid. -/
structure Nearest where
  minDistance : Option Int
  closestCentroid : Nat
deriving DecidableEq

/-- The comparison distance < minDistance. -/
def distLt (distance : Int) : Option Int → Bool
  | none => true
  | some m => decide (distance < m)

/-- The comparison distance == minDistance. -/
def distEq (distance : Int) : Option Int → Bool
  | none => false
  | some m => decide (distance = m)

/-- The body of the inner loop over j of the assignment step. -/
def nearestStep (p : RGB) (st : Nearest) (j : Nat) (c : RGB) : Nearest :=
  let distance := colorDistance p c
  if distLt distance st.minDistance || (distEq distance st.minDistance && decide (j < st.closestCentroid)) then
    { minDistance := some distance, closestCentroid := j }
  else st

/-- The inner loop over the centroids from index j on. -/
def nearestLoop (p : RGB) : List RGB → Nat → Nearest → Nearest
  | [], _, st => st
  | c :: cs, j, st => nearestLoop p cs (j + 1) (nearestStep p st j c)

/-- The closestCentroid the inner loop ends with for pixel p. -/
def closestCentroid (p : RGB) (centroids : List RGB) : Nat :=
  (nearestLoop p centroids 0 { minDistance := none, closestCentroid := 0 }).closestCentroid

/-- The append of a pixel to clusters[j] (clusterSizes[j]++, realloc, store at the end). -/
def appendAt : List (List RGB) → Nat → RGB → List (List RGB)
  | [], _, _ => []
  | cl :: cls, 0, p => (cl ++ [p]) :: cls
  | cl :: cls, j + 1, p => cl :: appendAt cls j p

/-- The assignment loop over the pixels, from the clusters built so far. -/
def assignLoop (centroids : List RGB) : List RGB → List (List RGB) → List (List RGB)
  | [], clusters => clusters
  | p :: ps, clusters => assignLoop centroids ps (appendAt clusters (closestCentroid p centroids) p)

/-- The assignment step of one iteration: the k clusters are cleared, then every pixel is
appended to the cluster of its closest centroid. -/
def assignPixels (pixels centroids : List RGB) : List (List RGB) :=
  assignLoop centroids pixels (List.replicate centroids.length [])

/-- Sum of one channel over a cluster (sumR, sumG, sumB of the source, in long). -/
def channelSum (f : RGB → Nat) (cluster : List RGB) : Int :=
  (cluster.map (fun p => (f p : Int))).sum

/-- The newCentroid of a non-empty cluster: each channel is sum / clusterSize, stored into
a uint8_t. -/
def newCentroid (cluster : List RGB) : RGB :=
  { r := toU8 (Int.tdiv (channelSum RGB.r cluster) (cluster.length : Int))
    g := toU8 (Int.tdiv (channelSum RGB.g cluster) (cluster.length : Int))
    b := toU8 (Int.tdiv (channelSum RGB.b cluster) (cluster.length : Int)) }

/-- The body of the recalculation loop for one centroid: the centroid afterwards and
whether it was changed. -/
def recalcCentroid (c : RGB) (cluster : List RGB) : RGB × Bool :=
  if 0 < cluster.length then
    let nc := newCentroid cluster
    if nc.r ≠ c.r ∨ nc.g ≠ c.g ∨ nc.b ≠ c.b then (nc, true) else (c, false)
  else (c, false)

/-- The recalculation loop over all centroids: the centroids afterwards and the flag
changed. -/
def recalcLoop : List RGB → List (List RGB) → List RGB × Bool
  | c :: cs, cl :: cls =>
    let h := recalcCentroid c cl
    let t := recalcLoop cs cls
    (h.1 :: t.1, h.2 || t.2)
  | cs, _ => (cs, false)

/-- One iteration of the k-means loop: assignment, then recalculation. -/
def kMeansIteration (pixels centroids : List RGB) : List RGB × Bool :=
  recalcLoop centroids (assignPixels pixels centroids)

/-- The iteration loop with n iterations of the budget left: it stops early when an
iteration changed no centroid. -/
def iterateLoop (pixels : List RGB) : Nat → List RGB → List RGB
  | 0, centroids => centroids
  | n + 1, centroids =>
    let it := kMeansIteration pixels centroids
    if it.2 then iterateLoop pixels n it.1 else it.1

/-- The centroid array that the arithmetic of kMeansClustering produces: sort, seeding,
iteration loop and final sort, with the allocation and the frees of the array clusters left
out.  The array pixels is the list of its pixelCount entries, so pixelCount is the length
of the list; k and maxIterations are the int arguments, which the caller passes
non-negative. -/
def kMeansCentroids (pixels : List RGB) (k maxIterations : Nat) : Option (List RGB) :=
  let sorted := qsort pixels
  match seedLoop sorted (pixels.length : Int) (k : Int) k 0 with
  | none => none
  | some seeds => some (qsort (iterateLoop sorted maxIterations seeds))

/-- The array clusters as malloc returns it (line 93): k entries, none of them stored.  An
entry is none until a pointer is stored into it, else the pixel list the pointer leads to
(the empty list for NULL). -/
def mallocClusters (k : Nat) : List (Option (List RGB)) := List.replicate k none

/-- One pass of free(clusters[i]); clusters[i] = NULL over the array: every entry is read,
and the pass has no result when an entry was never stored. -/
def freeClusters : List (Option (List RGB)) → Option (List (List RGB))
  | [] => some []
  | none :: _ => none
  | some _ :: rest =>
    match freeClusters rest with
    | none => none
    | some cleared => some ([] :: cleared)

/-- kMeansClustering of the source: sort, seeding, allocation of clusters, iteration loop,
final sort, clean-up.  The first pass of free(clusters[i]) over the array, the clearing
loop of iteration 0 (lines 99-103) or, when the loop body is never entered, the clean-up
(lines 151-153), reads the entries as malloc left them.  Every later pass reads entries
that the function stored (NULL or what realloc returned); those passes are the start of
assignPixels from k empty clusters.  The result is the centroid array afterwards. -/
def kMeansClustering (pixels : List RGB) (k maxIterations : Nat) : Option (List RGB) :=
  let sorted := qsort pixels
  match seedLoop sorted (pixels.length : Int) (k : Int) k 0 with
  | none => none
  | some seeds =>
    match freeClusters (mallocClusters k) with
    | none => none
    | some _ => some (qsort (iterateLoop sorted maxIterations seeds))

/-! ## extract_dominant_colors -/

/-- Read of one byte of image_data at an int index; none outside the buffer. -/
def readByte (image_data : List Nat) (idx : Int) : Option Nat :=
  if 0 ≤ idx then image_data[idx.toNat]? else none

/-- The pixel whose first byte is at offset index of the image buffer. -/
def readPixel (image_data : List Nat) (index : Int) : Option RGB :=
  match readByte image_data index, readByte image_data (wrap32 (index + 1)),
      readByte image_data (wrap32 (index + 2)) with
  | some r, some g, some b => some { r := r, g := g, b := b }
  | _, _, _ => none

/-- The sampling loop, for (i; i < total_pixels && pixel_count < sample_size; i += step),
with n = sample_size - pixel_count; the pixels stored from pixel_count on. -/
def sampleLoop (image_data : List Nat) (total_pixels step : Int) : Nat → Int → Option (List RGB)
  | 0, _ => some []
  | n + 1, i =>
    if i < total_pixels then
      let index := wrap32 (i * 3)
      if wrap32 (index + 2) ≥ wrap32 (total_pixels * 3) then some []
      else
        match readPixel image_data index with
        | none => none
        | some color =>
          match sampleLoop image_data total_pixels step n (wrap32 (i + step)) with
          | none => none
          | some rest => some (quantizeColor color 5 :: rest)
    else some []

/-- The stride of the sampler: total_pixels / 10000 when that is positive, else 1. -/
def sampleStep (total_pixels : Int) : Int :=
  if Int.tdiv total_pixels 10000 > 0 then Int.tdiv total_pixels 10000 else 1

/-- The sample_size of the sampler: total_pixels / step. -/
def sampleSize (total_pixels : Int) : Int :=
  Int.tdiv total_pixels (sampleStep total_pixels)

/-- The sampler of extract_dominant_colors: the array pixels after the sampling loop
(its first pixel_count entries). -/
def samplePixels (image_data : List Nat) (width height : Int) : Option (List RGB) :=
  let total_pixels := wrap32 (width * height)
  let step := sampleStep total_pixels
  let sample_size := sampleSize total_pixels
  sampleLoop image_data total_pixels step sample_size.toNat 0

/-- Width in bits of size_t (an LP64 platform). -/
def sizeBits : Nat := 64

/-- The byte count num_colors * sizeof(struct Color) of the memset call: num_colors is
converted to size_t and the product is taken in size_t; sizeof(struct Color) is 3. -/
def zeroFillBytes (num_colors : Int) : Nat :=
  (((num_colors % (2 ^ sizeBits : Int)) * 3) % (2 ^ sizeBits : Int)).toNat

/-- The first n bytes of an array of struct Color set to zero (n within the array). -/
def zeroBytes : List Color → Nat → List Color
  | out, 0 => out
  | [], _ + 1 => []
  | c :: cs, 1 => { r := 0, g := c.g, b := c.b } :: cs
  | c :: cs, 2 => { r := 0, g := 0, b := c.b } :: cs
  | _ :: cs, n + 3 => { r := 0, g := 0, b := 0 } :: zeroBytes cs n

/-- memset(dominant_colors, 0, n): none when the n bytes do not lie within the buffer. -/
def memsetZero (out : List Color) (n : Nat) : Option (List Color) :=
  if n ≤ 3 * out.length then some (zeroBytes out n) else none

/-- The copy loop dominant_colors[i] = dominant[i] over all of dominant; none when the
output buffer is shorter than dominant. -/
def copyLoop : List RGB → List Color → Option (List Color)
  | [], out => some out
  | _ :: _, [] => none
  | d :: ds, _ :: out =>
    match copyLoop ds out with
    | none => none
    | some rest => some ({ r := d.r, g := d.g, b := d.b } :: rest)

/-- The contents of a buffer given by a pointer: a null pointer has no bytes. -/
def bufferOf (p : Option (List Color)) : List Color := p.getD []

/-- extract_dominant_colors of the source.  image_data is none for a null pointer, else the
bytes of the buffer; dominant_colors is none for a null pointer, else the contents of the
caller array.  The result is the contents of the caller array after the call (empty for
a null pointer), or none when the call reads or writes outside a buffer. -/
def extract_dominant_colors (image_data : Option (List Nat)) (width height : Int)
    (dominant_colors : Option (List Color)) (num_colors : Int) : Option (List Color) :=
  match image_data, dominant_colors with
  | some img, some out =>
    if width ≤ 0 ∨ height ≤ 0 ∨ num_colors ≤ 0 then
      memsetZero out (zeroFillBytes num_colors)
    else
      match samplePixels img width height with
      | none => none
      | some pixels =>
        match kMeansClustering pixels num_colors.toNat 10 with
        | none => none
        | some dominant => copyLoop dominant out
  | _, _ => memsetZero (bufferOf dominant_colors) (zeroFillBytes num_colors)

/-- The black colour that a zero-filled entry holds. -/
def black : Color := { r := 0, g := 0, b := 0 }

/-- An RGB value as an output colour. -/
def toColor (c : RGB) : Color := { r := c.r, g := c.g, b := c.b }

/-- Lexicographic order on output colours by (r, g, b). -/
def colorLexLe (a b : Color) : Prop :=
  a.r < b.r ∨ (a.r = b.r ∧ (a.g < b.g ∨ (a.g = b.g ∧ a.b ≤ b.b)))

instance colorLexLeDecidable : DecidableRel colorLexLe := fun a b =>
  inferInstanceAs (Decidable (a.r < b.r ∨ (a.r = b.r ∧ (a.g < b.g ∨ (a.g = b.g ∧ a.b ≤ b.b)))))

/-- Pixel j of a packed RGB buffer: the bytes 3j, 3j+1, 3j+2. -/
def pixelAt (image_data : List Nat) (j : Nat) : RGB :=
  { r := image_data.getD (3 * j) 0, g := image_data.getD (3 * j + 1) 0, b := image_data.getD (3 * j + 2) 0 }

/-! ## Predicates used in the proofs -/

/-- Distance from p to the centroid at index i (0 beyond the array). -/
def distAt (p : RGB) (centroids : List RGB) (i : Nat) : Int :=
  match centroids[i]? with
  | some c => colorDistance p c
  | none => 0

/-- Invariant of the nearest-centroid search once the centroids before index j have been
compared, f i being the distance to centroid i: either nothing was compared yet, or
closestCentroid is the lowest index below j whose distance is least among those below j,
and minDistance is that distance. -/
def NearestInv (f : Nat → Int) (j : Nat) (st : Nearest) : Prop :=
  (j = 0 ∧ st = { minDistance := none, closestCentroid := 0 }) ∨
    (st.closestCentroid < j ∧ st.minDistance = some (f st.closestCentroid) ∧
      (∀ i, i < j → f st.closestCentroid ≤ f i) ∧
      (∀ i, i < st.closestCentroid → f st.closestCentroid < f i))

/-- The pixels at the indices a, a + s, a + 2 s, ... (n of them), each quantized with five
levels: what a stride-s pass over the image from pixel a collects. -/
def strideSample (image_data : List Nat) (s n a : Nat) : List RGB :=
  (List.range n).map (fun j => quantizeColor (pixelAt image_data (a + j * s)) 5)

/-- The pixels of a sorted sample at the seed indices (i + j) * n / k for j below m: what
the seeding loop stores from centroid i on. -/
def seedList (sorted : List RGB) (n k m i : Nat) : List RGB :=
  (List.range m).map (fun j => sorted.getD ((i + j) * n / k) { r := 0, g := 0, b := 0 })

/-- The sample of a well-formed image: the sample_size pixels at the indices 0, step,
2 step, ..., each quantized with five levels. -/
def sampleOf (image_data : List Nat) (width height : Int) : List RGB :=
  strideSample image_data (sampleStep (width * height)).toNat
    (sampleSize (width * height)).toNat 0

/-- The centroids kMeansCentroids gives for a sample whose seeding stays in range: sort,
seed at floor(i * n / k), iterate, sort. -/
def clusterOf (pixels : List RGB) (k maxIterations : Nat) : List RGB :=
  qsort (iterateLoop (qsort pixels) maxIterations
    (seedList (qsort pixels) pixels.length k k 0))

/-- The output array that the arithmetic of a call passing validation produces: sampling,
kMeansCentroids with the budget 10, copy; the frees of the array clusters are left out. -/
def extractCentroids (image_data : List Nat) (width height : Int) (out : List Color)
    (num_colors : Int) : Option (List Color) :=
  match samplePixels image_data width height with
  | none => none
  | some pixels =>
    match kMeansCentroids pixels num_colors.toNat 10 with
    | none => none
    | some dominant => copyLoop dominant out

/-- The integer-truncated mean floor(sum / n) of one channel over n pixels. -/
def channelMean (f : RGB → Nat) (pixels : List RGB) : Nat :=
  (pixels.map f).sum / pixels.length

/-- Every channel of the pixel is a uint8_t value. -/
def IsByteRGB (p : RGB) : Prop := p.r < 256 ∧ p.g < 256 ∧ p.b < 256

/-! ## The lexicographic order and the search without the tie-break disjunct -/

/-- Strict lexicographic order on (r, g, b). -/
def rgbLexLt (a b : RGB) : Prop :=
  a.r < b.r ∨ (a.r = b.r ∧ (a.g < b.g ∨ (a.g = b.g ∧ a.b < b.b)))

/-- The body of the inner loop with the update condition distance < minDistance alone (the
second disjunct of the source dropped). -/
def nearestStepStrict (p : RGB) (st : Nearest) (j : Nat) (c : RGB) : Nearest :=
  let distance := colorDistance p c
  if distLt distance st.minDistance then
    { minDistance := some distance, closestCentroid := j }
  else st

/-- The inner loop run with nearestStepStrict. -/
def nearestLoopStrict (p : RGB) : List RGB → Nat → Nearest → Nearest
  | [], _, st => st
  | c :: cs, j, st => nearestLoopStrict p cs (j + 1) (nearestStepStrict p st j c)

/-- The closestCentroid the search with the condition distance < minDistance alone ends
with. -/
def closestCentroidStrict (p : RGB) (centroids : List RGB) : Nat :=
  (nearestLoopStrict p centroids 0 { minDistance := none, closestCentroid := 0 }).closestCentroid

/-- The second disjunct of the update condition, distance == minDistance && j <
closestCentroid, in the state st at centroid j. -/
def tieDisjunct (p : RGB) (st : Nearest) (j : Nat) (c : RGB) : Bool :=
  distEq (colorDistance p c) st.minDistance && decide (j < st.closestCentroid)

/-- Whether the second disjunct is true at some step of the inner loop of the source, run
from index j in state st. -/
def tieDisjunctLoop (p : RGB) : List RGB → Nat → Nearest → Bool
  | [], _, _ => false
  | c :: cs, j, st => tieDisjunct p st j c || tieDisjunctLoop p cs (j + 1) (nearestStep p st j c)

/-- Whether the second disjunct is true at some step of the search for pixel p. -/
def tieDisjunctReached (p : RGB) (centroids : List RGB) : Bool :=
  tieDisjunctLoop p centroids 0 { minDistance := none, closestCentroid := 0 }

/-! ## Cluster membership -/

/-- The samples assigned to centroid i in the assignment step, in sample order: those
whose closest centroid is i. -/
def assignedTo (pixels centroids : List RGB) (i : Nat) : List RGB :=
  pixels.filter (fun p => decide (closestCentroid p centroids = i))

instance isByteRGBDecidable (p : RGB) : Decidable (IsByteRGB p) :=
  inferInstanceAs (Decidable (p.r < 256 ∧ p.g < 256 ∧ p.b < 256))

/-! ## The update from running accumulators (design note of the spec) -/

/-- The running accumulator of one centroid: three wide channel sums and one count. -/
structure Accumulator where
  sumR : Int
  sumG : Int
  sumB : Int
  count : Nat
deriving DecidableEq

/-- The accumulator at the start of an iteration. -/
def emptyAccumulator : Accumulator := { sumR := 0, sumG := 0, sumB := 0, count := 0 }

/-- One sample added to an accumulator. -/
def accumulate (a : Accumulator) (p : RGB) : Accumulator :=
  { sumR := a.sumR + (p.r : Int), sumG := a.sumG + (p.g : Int), sumB := a.sumB + (p.b : Int),
    count := a.count + 1 }

/-- One sample added to the accumulator of centroid j. -/
def accumulateAt : List Accumulator → Nat → RGB → List Accumulator
  | [], _, _ => []
  | a :: rest, 0, p => accumulate a p :: rest
  | a :: rest, j + 1, p => a :: accumulateAt rest j p

/-- The assignment loop with accumulators: every sample is added to the accumulator of its
closest centroid as it is assigned. -/
def accumulateLoop (centroids : List RGB) : List RGB → List Accumulator → List Accumulator
  | [], accs => accs
  | p :: ps, accs =>
    accumulateLoop centroids ps (accumulateAt accs (closestCentroid p centroids) p)

/-- The assignment step with accumulators recomputed fresh. -/
def accumulatePixels (pixels centroids : List RGB) : List Accumulator :=
  accumulateLoop centroids pixels (List.replicate centroids.length emptyAccumulator)

/-- The centroid of a non-empty accumulator: each channel is sum / count, stored into a
uint8_t. -/
def centroidOfAccumulator (a : Accumulator) : RGB :=
  { r := toU8 (Int.tdiv a.sumR (a.count : Int))
    g := toU8 (Int.tdiv a.sumG (a.count : Int))
    b := toU8 (Int.tdiv a.sumB (a.count : Int)) }

/-- The update of one centroid from its accumulator: the centroid afterwards and whether it
was changed. -/
def recalcFromAccumulator (c : RGB) (a : Accumulator) : RGB × Bool :=
  if 0 < a.count then
    let nc := centroidOfAccumulator a
    if nc.r ≠ c.r ∨ nc.g ≠ c.g ∨ nc.b ≠ c.b then (nc, true) else (c, false)
  else (c, false)

/-- The update of all centroids from their accumulators. -/
def recalcLoopAcc : List RGB → List Accumulator → List RGB × Bool
  | c :: cs, a :: rest =>
    let h := recalcFromAccumulator c a
    let t := recalcLoopAcc cs rest
    (h.1 :: t.1, h.2 || t.2)
  | cs, _ => (cs, false)

/-- One iteration with accumulators. -/
def kMeansIterationAcc (pixels centroids : List RGB) : List RGB × Bool :=
  recalcLoopAcc centroids (accumulatePixels pixels centroids)

/-- The iteration loop with accumulators. -/
def iterateLoopAcc (pixels : List RGB) : Nat → List RGB → List RGB
  | 0, centroids => centroids
  | n + 1, centroids =>
    let it := kMeansIterationAcc pixels centroids
    if it.2 then iterateLoopAcc pixels n it.1 else it.1

/-- The clustering with accumulators in place of the per-cluster pixel lists (no array
clusters is allocated). -/
def kMeansClusteringAcc (pixels : List RGB) (k maxIterations : Nat) : Option (List RGB) :=
  let sorted := qsort pixels
  match seedLoop sorted (pixels.length : Int) (k : Int) k 0 with
  | none => none
  | some seeds => some (qsort (iterateLoopAcc sorted maxIterations seeds))

/-- The accumulator that holds the sums and the size of a cluster list. -/
def accumulatorOf (cluster : List RGB) : Accumulator :=
  { sumR := channelSum RGB.r cluster, sumG := channelSum RGB.g cluster,
    sumB := channelSum RGB.b cluster, count := cluster.length }

/-! ## The iteration without the convergence check -/

/-- The sampling loop of the source with its pixel reads left out: for every entry into
the loop body, the byte offset index = i * 3 and whether the defensive bound check
index + 2 >= total_pixels * 3 was true there (after which the loop breaks). -/
def sampleLoopChecks (total_pixels step : Int) : Nat → Int → List (Int × Bool)
  | 0, _ => []
  | n + 1, i =>
    if i < total_pixels then
      let index := wrap32 (i * 3)
      if wrap32 (index + 2) ≥ wrap32 (total_pixels * 3) then [(index, true)]
      else (index, false) :: sampleLoopChecks total_pixels step n (wrap32 (i + step))
    else []

/-- The offsets and bound checks of the sampler of extract_dominant_colors. -/
def samplePixelsChecks (width height : Int) : List (Int × Bool) :=
  let total_pixels := wrap32 (width * height)
  let step := sampleStep total_pixels
  let sample_size := sampleSize total_pixels
  sampleLoopChecks total_pixels step sample_size.toNat 0

/-- The offsets 3 a, 3 (a + s), ... (n of them), each with a bound check that is false. -/
def strideChecks (s n a : Nat) : List (Int × Bool) :=
  (List.range n).map (fun j => (((3 * (a + j * s) : Nat) : Int), false))

/-! ## The range of a channel over the sample -/

/-- The value v lies between the least and the greatest value of channel f over the
sample: some sample is at most v and some sample is at least v. -/
def ChannelInRange (f : RGB → Nat) (sample : List RGB) (v : Nat) : Prop :=
  (∃ p ∈ sample, f p ≤ v) ∧ (∃ q ∈ sample, v ≤ f q)

/-- Every channel of the colour lies within the range of that channel over the sample. -/
def CentroidInRange (sample : List RGB) (c : RGB) : Prop :=
  ChannelInRange RGB.r sample c.r ∧ ChannelInRange RGB.g sample c.g ∧
    ChannelInRange RGB.b sample c.b

/-! ## Integer arithmetic -/

theorem wrap32_of_range (x : Int) (h1 : -2147483648 ≤ x) (h2 : x ≤ 2147483647) :
    wrap32 x = x := by
  unfold wrap32
  omega

theorem toU8_of_range (x : Int) (h1 : 0 ≤ x) (h2 : x < 256) : ((toU8 x : Nat) : Int) = x := by
  unfold toU8
  omega

theorem toU8_lt (x : Int) : toU8 x < 256 := by
  unfold toU8
  omega

theorem toU8_natCast (n : Nat) (h : n < 256) : toU8 (n : Int) = n := by
  unfold toU8
  omega

theorem tdiv_256_5 : Int.tdiv 256 5 = 51 := by decide

/-- With five levels a channel below 256 is quantized to 51 * floor(channel * 5 / 256). -/
theorem quantizeChannel_five (c : Nat) (h : c < 256) :
    quantizeChannel c 5 = 51 * (c * 5 / 256) := by
  have hq : ((c : Int) * 5) / 256 = ((c * 5 / 256 : Nat) : Int) := by push_cast; rfl
  have hle : c * 5 / 256 ≤ 4 := by omega
  unfold quantizeChannel
  rw [tdiv_256_5, wrap32_of_range ((c : Int) * 5) (by omega) (by omega),
    Int.tdiv_eq_ediv (by omega) (by omega), hq]
  generalize c * 5 / 256 = q at hle
  rw [wrap32_of_range _ (by omega) (by omega)]
  unfold toU8
  omega

theorem quantizeChannel_lt (c : Nat) (levels : Int) : quantizeChannel c levels < 256 :=
  toU8_lt _

/-! ## Quantization -/

/-- C7: for every colour with channels in 0..255, quantizeColor with levels = 5 gives on
every channel 51 * floor(channel * 5 / 256), a member of 0, 51, 102, 153, 204. -/
theorem quantizeColor_five_levels (c : RGB) (hr : c.r < 256) (hg : c.g < 256) (hb : c.b < 256) :
    quantizeColor c 5 =
        { r := 51 * (c.r * 5 / 256), g := 51 * (c.g * 5 / 256), b := 51 * (c.b * 5 / 256) } ∧
      (quantizeColor c 5).r ∈ [0, 51, 102, 153, 204] ∧
      (quantizeColor c 5).g ∈ [0, 51, 102, 153, 204] ∧
      (quantizeColor c 5).b ∈ [0, 51, 102, 153, 204] := by
  have e : quantizeColor c 5 =
      { r := 51 * (c.r * 5 / 256), g := 51 * (c.g * 5 / 256), b := 51 * (c.b * 5 / 256) } := by
    unfold quantizeColor
    rw [quantizeChannel_five c.r hr, quantizeChannel_five c.g hg, quantizeChannel_five c.b hb]
  rw [e]
  refine ⟨rfl, ?_, ?_, ?_⟩ <;> simp only [List.mem_cons, List.mem_singleton] <;> omega

theorem quantizeColor_five_levels_witness :
    quantizeColor { r := 200, g := 10, b := 10 } 5 =
        { r := 51 * (200 * 5 / 256), g := 51 * (10 * 5 / 256), b := 51 * (10 * 5 / 256) } ∧
      (quantizeColor { r := 200, g := 10, b := 10 } 5).r ∈ [0, 51, 102, 153, 204] ∧
      (quantizeColor { r := 200, g := 10, b := 10 } 5).g ∈ [0, 51, 102, 153, 204] ∧
      (quantizeColor { r := 200, g := 10, b := 10 } 5).b ∈ [0, 51, 102, 153, 204] :=
  quantizeColor_five_levels { r := 200, g := 10, b := 10 } (by decide) (by decide) (by decide)

/-! ## Assignment step: the nearest-centroid search -/

theorem nearestStep_inv (p : RGB) (f : Nat → Int) (j : Nat) (st : Nearest) (c : RGB)
    (hinv : NearestInv f j st) (hc : colorDistance p c = f j) :
    NearestInv f (j + 1) (nearestStep p st j c) := by
  rcases hinv with ⟨hj, hst⟩ | ⟨hlt, hmin, hle, hlow⟩
  · subst hj
    subst hst
    have hstep : nearestStep p { minDistance := none, closestCentroid := 0 } 0 c =
        { minDistance := some (f 0), closestCentroid := 0 } := by
      simp [nearestStep, distLt, hc]
    rw [hstep]
    right
    dsimp only
    refine ⟨by omega, rfl, ?_, ?_⟩
    · intro i hi
      have : i = 0 := by omega
      subst this
      exact le_refl _
    · intro i hi
      omega
  · right
    by_cases hd : f j < f st.closestCentroid
    · have hstep : nearestStep p st j c = { minDistance := some (f j), closestCentroid := j } := by
        simp [nearestStep, distLt, hmin, hc, hd]
      rw [hstep]
      dsimp only
      refine ⟨by omega, rfl, ?_, ?_⟩
      · intro i hi
        rcases Nat.lt_succ_iff_lt_or_eq.mp hi with h | h
        · exact le_of_lt (lt_of_lt_of_le hd (hle i h))
        · subst h
          exact le_refl _
      · intro i hi
        exact lt_of_lt_of_le hd (hle i hi)
    · have hnot : ¬ j < st.closestCentroid := by omega
      have hstep : nearestStep p st j c = st := by
        simp [nearestStep, distLt, distEq, hmin, hc, hd, hnot]
      rw [hstep]
      refine ⟨by omega, hmin, ?_, hlow⟩
      intro i hi
      rcases Nat.lt_succ_iff_lt_or_eq.mp hi with h | h
      · exact hle i h
      · subst h
        exact not_lt.mp hd

theorem nearestLoop_inv (p : RGB) (f : Nat → Int) :
    ∀ (cs : List RGB) (j : Nat) (st : Nearest), NearestInv f j st →
      (∀ i c, cs[i]? = some c → colorDistance p c = f (j + i)) →
      NearestInv f (j + cs.length) (nearestLoop p cs j st) := by
  intro cs
  induction cs with
  | nil =>
    intro j st hinv _
    simpa [nearestLoop] using hinv
  | cons c cs ih =>
    intro j st hinv hf
    have h0 : colorDistance p c = f j := by
      have := hf 0 c (by simp)
      simpa using this
    have hstep := nearestStep_inv p f j st c hinv h0
    have htail : ∀ i d, cs[i]? = some d → colorDistance p d = f (j + 1 + i) := by
      intro i d hd
      have := hf (i + 1) d (by simpa using hd)
      rw [this]
      congr 1
      omega
    have := ih (j + 1) (nearestStep p st j c) hstep htail
    simp only [nearestLoop, List.length_cons]
    have e : j + (cs.length + 1) = j + 1 + cs.length := by omega
    rw [e]
    exact this

theorem distAt_of_getElem? (p : RGB) (centroids : List RGB) (i : Nat) (c : RGB)
    (h : centroids[i]? = some c) : distAt p centroids i = colorDistance p c := by
  simp [distAt, h]

/-- The search ends in the invariant over the whole centroid array. -/
theorem closestCentroid_inv (p : RGB) (centroids : List RGB) :
    NearestInv (distAt p centroids) centroids.length
      (nearestLoop p centroids 0 { minDistance := none, closestCentroid := 0 }) := by
  have h := nearestLoop_inv p (distAt p centroids) centroids 0
    { minDistance := none, closestCentroid := 0 } (Or.inl ⟨rfl, rfl⟩)
    (by
      intro i c hc
      rw [Nat.zero_add]
      exact (distAt_of_getElem? p centroids i c hc).symm)
  simpa using h

theorem closestCentroid_lt (p : RGB) (centroids : List RGB) (hk : 1 ≤ centroids.length) :
    closestCentroid p centroids < centroids.length := by
  rcases closestCentroid_inv p centroids with ⟨h0, _⟩ | ⟨hlt, _⟩
  · omega
  · exact hlt

/-- C10: for a centroid array of length k at least 1 the index chosen for a sample p lies
in the array, its squared distance to p is least among all centroids, and every centroid
of lower index is strictly farther: ties resolve to the lowest index. -/
theorem closestCentroid_lowest_minimum (p : RGB) (centroids : List RGB)
    (hk : 1 ≤ centroids.length) :
    ∃ c, centroids[closestCentroid p centroids]? = some c ∧
      ∀ i ci, centroids[i]? = some ci →
        colorDistance p c ≤ colorDistance p ci ∧
          (i < closestCentroid p centroids → colorDistance p c < colorDistance p ci) := by
  rcases closestCentroid_inv p centroids with ⟨h0, _⟩ | ⟨hlt, _, hle, hlow⟩
  · omega
  · have hlt2 : closestCentroid p centroids < centroids.length := hlt
    refine ⟨centroids[closestCentroid p centroids], List.getElem?_eq_getElem hlt2, ?_⟩
    intro i ci hci
    have hi : i < centroids.length := by
      by_contra hcon
      rw [List.getElem?_eq_none (by omega)] at hci
      exact Option.noConfusion hci
    have hc := distAt_of_getElem? p centroids _ _ (List.getElem?_eq_getElem hlt2)
    have hd := distAt_of_getElem? p centroids i ci hci
    constructor
    · have := hle i hi
      change distAt p centroids (closestCentroid p centroids) ≤ distAt p centroids i at this
      rwa [hc, hd] at this
    · intro hil
      have := hlow i hil
      change distAt p centroids (closestCentroid p centroids) < distAt p centroids i at this
      rwa [hc, hd] at this

theorem closestCentroid_lowest_minimum_witness :
    ∃ c, [({ r := 9, g := 0, b := 0 } : RGB), { r := 1, g := 0, b := 0 },
          { r := 0, g := 1, b := 0 }][closestCentroid { r := 0, g := 0, b := 0 }
            [{ r := 9, g := 0, b := 0 }, { r := 1, g := 0, b := 0 }, { r := 0, g := 1, b := 0 }]]? = some c ∧
      ∀ i ci, [({ r := 9, g := 0, b := 0 } : RGB), { r := 1, g := 0, b := 0 },
          { r := 0, g := 1, b := 0 }][i]? = some ci →
        colorDistance { r := 0, g := 0, b := 0 } c ≤ colorDistance { r := 0, g := 0, b := 0 } ci ∧
          (i < closestCentroid { r := 0, g := 0, b := 0 }
              [{ r := 9, g := 0, b := 0 }, { r := 1, g := 0, b := 0 }, { r := 0, g := 1, b := 0 }] →
            colorDistance { r := 0, g := 0, b := 0 } c < colorDistance { r := 0, g := 0, b := 0 } ci) :=
  closestCentroid_lowest_minimum { r := 0, g := 0, b := 0 }
    [{ r := 9, g := 0, b := 0 }, { r := 1, g := 0, b := 0 }, { r := 0, g := 1, b := 0 }] (by decide)

/-! ## Validation failure: the zero fill -/

theorem pow_sizeBits : (2 ^ sizeBits : Int) = 18446744073709551616 := by
  unfold sizeBits
  norm_num

theorem zeroFillBytes_of_nonneg (n : Int) (h0 : 0 ≤ n) (h1 : n ≤ 2147483647) :
    zeroFillBytes n = 3 * n.toNat := by
  unfold zeroFillBytes
  rw [pow_sizeBits, Int.emod_eq_of_lt h0 (by linarith),
    Int.emod_eq_of_lt (by linarith) (by linarith)]
  omega

/-- For a negative int the byte count of the memset call is 2^64 + 3 * num_colors. -/
theorem zeroFillBytes_of_neg (n : Int) (h0 : n < 0) (h1 : -2147483648 ≤ n) :
    (zeroFillBytes n : Int) = 18446744073709551616 + 3 * n := by
  unfold zeroFillBytes
  rw [pow_sizeBits]
  have e1 : n % 18446744073709551616 = n + 18446744073709551616 := by
    rw [← Int.add_mul_emod_self (a := n) (b := 1) (c := 18446744073709551616), one_mul]
    exact Int.emod_eq_of_lt (by linarith) (by linarith)
  have e2 : ((n + 18446744073709551616) * 3) % 18446744073709551616 =
      18446744073709551616 + 3 * n := by
    have e3 : (n + 18446744073709551616) * 3 =
        (18446744073709551616 + 3 * n) + 2 * 18446744073709551616 := by ring
    rw [e3, Int.add_mul_emod_self]
    exact Int.emod_eq_of_lt (by linarith) (by linarith)
  rw [e1, e2]
  exact Int.toNat_of_nonneg (by linarith)

theorem zeroBytes_three_mul : ∀ (m : Nat) (out : List Color), m ≤ out.length →
    zeroBytes out (3 * m) = List.replicate m black ++ out.drop m := by
  intro m
  induction m with
  | zero =>
    intro out _
    cases out <;> simp [zeroBytes]
  | succ m ih =>
    intro out h
    cases out with
    | nil => simp at h
    | cons c cs =>
      have e : 3 * (m + 1) = 3 * m + 3 := by omega
      have hm : m ≤ cs.length := by simpa using h
      rw [e]
      simp only [zeroBytes, ih cs hm, List.replicate_succ, List.drop_succ_cons, List.cons_append]
      rfl

theorem memsetZero_all (out : List Color) :
    memsetZero out (3 * out.length) = some (List.replicate out.length black) := by
  unfold memsetZero
  rw [if_pos (le_refl _), zeroBytes_three_mul _ _ (le_refl _)]
  simp

/-- C2: with num_colors > 0 and a non-null output array of num_colors entries, a null
image_data, a width <= 0 or a height <= 0 leaves the output as num_colors colours all equal
to (0, 0, 0), whatever the array held before. -/
theorem extract_invalid_zero_fill (image_data : Option (List Nat)) (width height : Int)
    (out : List Color) (num_colors : Int) (hpos : 0 < num_colors)
    (hint : num_colors ≤ 2147483647) (hlen : out.length = num_colors.toNat)
    (hbad : image_data = none ∨ width ≤ 0 ∨ height ≤ 0) :
    extract_dominant_colors image_data width height (some out) num_colors =
      some (List.replicate num_colors.toNat black) := by
  have hz : zeroFillBytes num_colors = 3 * out.length := by
    rw [zeroFillBytes_of_nonneg num_colors (le_of_lt hpos) hint, hlen]
  have hm : memsetZero out (zeroFillBytes num_colors) =
      some (List.replicate num_colors.toNat black) := by
    rw [hz, memsetZero_all, hlen]
  cases image_data with
  | none => simpa [extract_dominant_colors, bufferOf] using hm
  | some img =>
    have hwh : width ≤ 0 ∨ height ≤ 0 := by
      rcases hbad with h | h
      · exact Option.noConfusion h
      · exact h
    have hcond : width ≤ 0 ∨ height ≤ 0 ∨ num_colors ≤ 0 := by
      rcases hwh with h | h
      · exact Or.inl h
      · exact Or.inr (Or.inl h)
    simp only [extract_dominant_colors, if_pos hcond]
    exact hm

theorem extract_invalid_zero_fill_witness :
    extract_dominant_colors none 10 10
        (some [{ r := 7, g := 8, b := 9 }, { r := 1, g := 2, b := 3 }, { r := 255, g := 0, b := 4 }]) 3 =
      some (List.replicate (3 : Int).toNat black) :=
  extract_invalid_zero_fill none 10 10
    [{ r := 7, g := 8, b := 9 }, { r := 1, g := 2, b := 3 }, { r := 255, g := 0, b := 4 }] 3
    (by decide) (by decide) (by decide) (Or.inl rfl)

/-- C8 at num_colors = -1: the validation-failure path asks memset for 2^64 - 3 bytes, not
for 0, and the call writes outside the one-entry output array. -/
theorem extract_negative_num_colors :
    zeroFillBytes (-1) = 18446744073709551613 ∧
      extract_dominant_colors (some [0, 0, 0]) 1 1 (some [{ r := 7, g := 7, b := 7 }]) (-1) = none := by
  constructor
  · decide
  · decide

/-- With num_colors = 0 the memset call has length 0 and the output array is unchanged. -/
theorem extract_zero_num_colors (image_data : Option (List Nat)) (width height : Int)
    (dominant_colors : Option (List Color)) :
    zeroFillBytes 0 = 0 ∧
      extract_dominant_colors image_data width height dominant_colors 0 =
        some (bufferOf dominant_colors) := by
  have hz : zeroFillBytes 0 = 0 := by decide
  refine ⟨hz, ?_⟩
  have hm : ∀ out : List Color, memsetZero out 0 = some out := by
    intro out
    cases out <;> simp [memsetZero, zeroBytes]
  cases image_data <;> cases dominant_colors <;>
    simp [extract_dominant_colors, hz, hm, bufferOf]

/-! ## The sampler -/

theorem getElem?_eq_some_getD (l : List Nat) (i : Nat) (h : i < l.length) :
    l[i]? = some (l.getD i 0) := by
  rw [List.getElem?_eq_getElem h, List.getD_eq_getElem l 0 h]

theorem readByte_natCast (l : List Nat) (i : Nat) (h : i < l.length) :
    readByte l (i : Int) = some (l.getD i 0) := by
  unfold readByte
  rw [if_pos (Int.ofNat_nonneg i), Int.toNat_ofNat]
  exact getElem?_eq_some_getD l i h

theorem readPixel_eq (image_data : List Nat) (a : Nat) (h : 3 * a + 2 < image_data.length)
    (hr : 3 * a + 2 ≤ 2147483647) :
    readPixel image_data ((3 * a : Nat) : Int) = some (pixelAt image_data a) := by
  have e1 : wrap32 (((3 * a : Nat) : Int) + 1) = ((3 * a + 1 : Nat) : Int) := by
    rw [wrap32_of_range _ (by omega) (by omega)]
    omega
  have e2 : wrap32 (((3 * a : Nat) : Int) + 2) = ((3 * a + 2 : Nat) : Int) := by
    rw [wrap32_of_range _ (by omega) (by omega)]
    omega
  unfold readPixel
  rw [e1, e2, readByte_natCast _ _ (by omega), readByte_natCast _ _ (by omega),
    readByte_natCast _ _ h]
  rfl

theorem strideSample_succ (image_data : List Nat) (s n a : Nat) :
    strideSample image_data s (n + 1) a =
      quantizeColor (pixelAt image_data a) 5 :: strideSample image_data s n (a + s) := by
  unfold strideSample
  rw [List.range_succ_eq_map, List.map_cons, List.map_map]
  simp only [Nat.zero_mul, Nat.add_zero, List.cons.injEq, true_and]
  apply List.map_congr_left
  intro j _
  simp only [Function.comp_apply, Nat.succ_eq_add_one]
  congr 2
  rw [Nat.add_mul]
  omega

theorem strideSample_length (image_data : List Nat) (s n a : Nat) :
    (strideSample image_data s n a).length = n := by
  simp [strideSample]

/-- The sampling loop on a buffer of 3 T bytes whose size fits an int: when the n indices
a, a + s, ... all lie below T, the loop reads no byte outside the buffer, never takes the
defensive break, and stores exactly those n quantized pixels. -/
theorem sampleLoop_eq (image_data : List Nat) (T s : Nat) (hT : 3 * T ≤ 2147483647)
    (hlen : image_data.length = 3 * T) (hs : 1 ≤ s) (hsT : s ≤ T) :
    ∀ (n a : Nat), a + n * s < T + s →
      sampleLoop image_data (T : Int) (s : Int) n (a : Int) =
        some (strideSample image_data s n a) := by
  intro n
  induction n with
  | zero =>
    intro a _
    simp [sampleLoop, strideSample]
  | succ n ih =>
    intro a h
    have hmul : (n + 1) * s = n * s + s := Nat.succ_mul n s
    have haT : a < T := by
      rw [hmul] at h
      have : 0 ≤ n * s := Nat.zero_le _
      omega
    have hnext : a + s + n * s < T + s := by
      rw [hmul] at h
      omega
    have e1 : wrap32 ((a : Int) * 3) = ((3 * a : Nat) : Int) := by
      rw [wrap32_of_range _ (by omega) (by omega)]
      omega
    have e2 : wrap32 (((3 * a : Nat) : Int) + 2) = ((3 * a + 2 : Nat) : Int) := by
      rw [wrap32_of_range _ (by omega) (by omega)]
      omega
    have e3 : wrap32 ((T : Int) * 3) = ((3 * T : Nat) : Int) := by
      rw [wrap32_of_range _ (by omega) (by omega)]
      omega
    have e4 : wrap32 ((a : Int) + (s : Int)) = ((a + s : Nat) : Int) := by
      rw [wrap32_of_range _ (by omega) (by omega)]
      omega
    have hcond : (a : Int) < (T : Int) := by omega
    have hbreak : ¬ (((3 * a + 2 : Nat) : Int) ≥ ((3 * T : Nat) : Int)) := by omega
    rw [sampleLoop]
    simp only [if_pos hcond, e1, e2, e3, if_neg hbreak, e4]
    rw [readPixel_eq image_data a (by omega) (by omega), ih (a + s) hnext,
      strideSample_succ]

theorem tdiv_natCast (m n : Nat) : Int.tdiv (m : Int) (n : Int) = ((m / n : Nat) : Int) :=
  (Int.ofNat_tdiv m n).symm

theorem sampleStep_natCast (T : Nat) :
    sampleStep (T : Int) = ((if 0 < T / 10000 then T / 10000 else 1 : Nat) : Int) := by
  have e : Int.tdiv (T : Int) 10000 = ((T / 10000 : Nat) : Int) := tdiv_natCast T 10000
  unfold sampleStep
  rw [e]
  by_cases h : 0 < T / 10000
  · rw [if_pos h, if_pos (by omega)]
  · rw [if_neg h, if_neg (by omega)]
    rfl

theorem sampleSize_natCast (T : Nat) :
    sampleSize (T : Int) = ((T / (if 0 < T / 10000 then T / 10000 else 1) : Nat) : Int) := by
  unfold sampleSize
  rw [sampleStep_natCast, tdiv_natCast]

/-- The stride is at least 1 and at most the pixel count of a non-empty image. -/
theorem stepNat_bounds (T : Nat) (hT : 1 ≤ T) :
    1 ≤ (if 0 < T / 10000 then T / 10000 else 1) ∧
      (if 0 < T / 10000 then T / 10000 else 1) ≤ T := by
  by_cases h : 0 < T / 10000
  · rw [if_pos h]
    exact ⟨h, Nat.div_le_self T 10000⟩
  · rw [if_neg h]
    exact ⟨le_refl 1, hT⟩

/-- The sampler on a well-formed image (positive dimensions, 3 * width * height within
int, a buffer of exactly that many bytes): it returns the sample_size pixels at the
indices 0, step, 2 step, ..., each quantized. -/
theorem samplePixels_valid (image_data : List Nat) (width height : Int)
    (hw : 0 < width) (hh : 0 < height) (hfit : width * height * 3 ≤ 2147483647)
    (hlen : (image_data.length : Int) = width * height * 3) :
    samplePixels image_data width height =
      some (strideSample image_data (sampleStep (width * height)).toNat
        (sampleSize (width * height)).toNat 0) := by
  have hpos : 0 < width * height := Int.mul_pos hw hh
  obtain ⟨T, hT⟩ : ∃ T : Nat, width * height = (T : Int) :=
    ⟨(width * height).toNat, (Int.toNat_of_nonneg (le_of_lt hpos)).symm⟩
  rw [hT] at hfit hlen hpos
  have hT1 : 1 ≤ T := by omega
  have hb := stepNat_bounds T hT1
  unfold samplePixels
  simp only [hT]
  rw [wrap32_of_range (T : Int) (by omega) (by omega), sampleStep_natCast, sampleSize_natCast,
    Int.toNat_ofNat, Int.toNat_ofNat]
  generalize (if 0 < T / 10000 then T / 10000 else 1) = s at hb
  have hle : T / s * s ≤ T := Nat.div_mul_le_self T s
  have h0 : ((0 : Nat) : Int) = 0 := rfl
  rw [← h0]
  exact sampleLoop_eq image_data T s (by omega) (by omega) hb.1 hb.2 (T / s) 0 (by omega)

/-- The sample of a well-formed image is not empty. -/
theorem sampleSize_pos (T : Nat) (hT : 1 ≤ T) :
    1 ≤ T / (if 0 < T / 10000 then T / 10000 else 1) := by
  have hb := stepNat_bounds T hT
  generalize (if 0 < T / 10000 then T / 10000 else 1) = s at hb
  exact (Nat.one_le_div_iff (by omega)).mpr hb.2

/-- The sample of any image has fewer than 20000 pixels. -/
theorem sampleSize_lt (T : Nat) : T / (if 0 < T / 10000 then T / 10000 else 1) < 20000 := by
  by_cases h : 0 < T / 10000
  · rw [if_pos h]
    have h1 : T < 10000 * (T / 10000) + 10000 := by omega
    rw [Nat.div_lt_iff_lt_mul h]
    have h2 : 10000 ≤ 10000 * (T / 10000) := by omega
    have h3 : 20000 * (T / 10000) = 10000 * (T / 10000) + 10000 * (T / 10000) := by omega
    omega
  · rw [if_neg h, Nat.div_one]
    omega

/-- C6: a well-formed image of at most 10000 pixels is sampled with step 1, and the sample
before clustering is the list of all width * height pixels in image order, each quantized
with five levels. -/
theorem sample_all_pixels (image_data : List Nat) (width height : Int)
    (hw : 0 < width) (hh : 0 < height) (hsmall : width * height ≤ 10000)
    (hlen : (image_data.length : Int) = width * height * 3) :
    sampleStep (wrap32 (width * height)) = 1 ∧
      samplePixels image_data width height =
        some ((List.range (width * height).toNat).map
          (fun j => quantizeColor (pixelAt image_data j) 5)) := by
  have hpos : 0 < width * height := Int.mul_pos hw hh
  have hv := samplePixels_valid image_data width height hw hh (by omega) hlen
  obtain ⟨T, hT⟩ : ∃ T : Nat, width * height = (T : Int) :=
    ⟨(width * height).toNat, (Int.toNat_of_nonneg (le_of_lt hpos)).symm⟩
  rw [hT] at hsmall hpos hv ⊢
  have hstep : (if 0 < T / 10000 then T / 10000 else 1) = 1 := by
    by_cases h : 0 < T / 10000
    · rw [if_pos h]
      omega
    · rw [if_neg h]
  rw [wrap32_of_range (T : Int) (by omega) (by omega), hv, sampleStep_natCast,
    sampleSize_natCast, hstep, Int.toNat_ofNat, Int.toNat_ofNat, Int.toNat_ofNat, Nat.div_one]
  refine ⟨rfl, ?_⟩
  unfold strideSample
  simp

theorem sample_all_pixels_witness :
    sampleStep (wrap32 (2 * 1)) = 1 ∧
      samplePixels [200, 10, 10, 0, 255, 128] 2 1 =
        some ((List.range ((2 : Int) * 1).toNat).map
          (fun j => quantizeColor (pixelAt [200, 10, 10, 0, 255, 128] j) 5)) :=
  sample_all_pixels [200, 10, 10, 0, 255, 128] 2 1 (by decide) (by decide) (by decide)
    (by decide)

/-- C5 at a 10001 x 1 image: the step is 1 and the sample that is passed on to the
clustering has 10001 pixels, more than 10000. -/
theorem sample_exceeds_cap :
    sampleStep (wrap32 (10001 * 1)) = 1 ∧
      ∃ pixels, samplePixels (List.replicate 30003 0) 10001 1 = some pixels ∧
        pixels.length = 10001 := by
  refine ⟨by decide, _, samplePixels_valid (List.replicate 30003 0) 10001 1 (by decide)
    (by decide) (by decide) (by rw [List.length_replicate]; decide), ?_⟩
  rw [strideSample_length]
  decide

/-! ## The order of compareRGB and qsort -/

/-- The comparator is not positive exactly on lexicographically ordered pairs. -/
theorem rgbLe_iff (a b : RGB) :
    rgbLe a b ↔ a.r < b.r ∨ (a.r = b.r ∧ (a.g < b.g ∨ (a.g = b.g ∧ a.b ≤ b.b))) := by
  unfold rgbLe compareRGB
  split_ifs <;> omega

theorem rgbLe_total (a b : RGB) : rgbLe a b ∨ rgbLe b a := by
  rw [rgbLe_iff, rgbLe_iff]
  omega

theorem rgbLe_trans (a b c : RGB) (h1 : rgbLe a b) (h2 : rgbLe b c) : rgbLe a c := by
  rw [rgbLe_iff] at h1 h2 ⊢
  omega

theorem rgbLe_refl (a : RGB) : rgbLe a a := by
  rw [rgbLe_iff]
  omega

theorem qsort_sorted (xs : List RGB) : (qsort xs).Pairwise rgbLe :=
  @List.sorted_insertionSort RGB rgbLe _ ⟨rgbLe_total⟩ ⟨rgbLe_trans⟩ xs

theorem qsort_perm (xs : List RGB) : (qsort xs).Perm xs :=
  List.perm_insertionSort rgbLe xs

theorem qsort_length (xs : List RGB) : (qsort xs).length = xs.length :=
  (qsort_perm xs).length_eq

theorem qsort_of_sorted (xs : List RGB) (h : xs.Pairwise rgbLe) : qsort xs = xs :=
  List.Sorted.insertionSort_eq h

/-! ## Seeding -/

theorem readRGB_natCast (pixels : List RGB) (i : Nat) (h : i < pixels.length) :
    readRGB pixels (i : Int) = some (pixels.getD i { r := 0, g := 0, b := 0 }) := by
  unfold readRGB
  rw [if_pos (Int.ofNat_nonneg i), Int.toNat_ofNat, List.getElem?_eq_getElem h,
    List.getD_eq_getElem pixels _ h]

/-- The seed index in int arithmetic is floor(i * n / k), below n, as long as i * n stays
within int. -/
theorem seedIndex_natCast (i n k : Nat) (hfit : i * n ≤ 2147483647) :
    seedIndex (i : Int) (n : Int) (k : Int) = ((i * n / k : Nat) : Int) := by
  unfold seedIndex
  have e : (i : Int) * (n : Int) = ((i * n : Nat) : Int) := by push_cast; rfl
  rw [e, wrap32_of_range _ (by omega) (by omega), tdiv_natCast]

theorem seedIndex_lt (i n k : Nat) (hi : i < k) (hn : 1 ≤ n) : i * n / k < n := by
  apply Nat.div_lt_of_lt_mul
  exact Nat.mul_lt_mul_of_pos_right hi (by omega)

theorem seedList_succ (sorted : List RGB) (n k m i : Nat) :
    seedList sorted n k (m + 1) i =
      sorted.getD (i * n / k) { r := 0, g := 0, b := 0 } :: seedList sorted n k m (i + 1) := by
  unfold seedList
  rw [List.range_succ_eq_map, List.map_cons, List.map_map]
  simp only [Nat.add_zero, List.cons.injEq, true_and]
  apply List.map_congr_left
  intro j _
  simp only [Function.comp_apply, Nat.succ_eq_add_one]
  have e : i + (j + 1) = i + 1 + j := by omega
  rw [e]

theorem seedList_length (sorted : List RGB) (n k m i : Nat) :
    (seedList sorted n k m i).length = m := by
  simp [seedList]

/-- The seeding loop over a sample of n >= 1 pixels, when (k - 1) * n stays within int:
every index lies in the sample and centroid i is the pixel at index floor(i * n / k). -/
theorem seedLoop_eq (sorted : List RGB) (n k : Nat) (hlen : sorted.length = n) (hn : 1 ≤ n)
    (hfit : (k - 1) * n ≤ 2147483647) :
    ∀ (m i : Nat), i + m = k →
      seedLoop sorted (n : Int) (k : Int) m (i : Int) = some (seedList sorted n k m i) := by
  intro m
  induction m with
  | zero =>
    intro i _
    simp [seedLoop, seedList]
  | succ m ih =>
    intro i him
    have hik : i ≤ k - 1 := by omega
    have hin : i * n ≤ 2147483647 := le_trans (Nat.mul_le_mul_right n hik) hfit
    have hlt : i * n / k < sorted.length := by
      rw [hlen]
      exact seedIndex_lt i n k (by omega) hn
    have e : (i : Int) + 1 = ((i + 1 : Nat) : Int) := by push_cast; rfl
    rw [seedLoop, seedIndex_natCast i n k hin, readRGB_natCast sorted _ hlt]
    simp only []
    rw [e, ih (i + 1) (by omega), seedList_succ]

/-! ## Lengths through the iteration loop -/

theorem recalcLoop_length : ∀ (centroids : List RGB) (clusters : List (List RGB)),
    (recalcLoop centroids clusters).1.length = centroids.length := by
  intro centroids
  induction centroids with
  | nil =>
    intro clusters
    cases clusters <;> simp [recalcLoop]
  | cons c cs ih =>
    intro clusters
    cases clusters with
    | nil => simp [recalcLoop]
    | cons cl cls => simp [recalcLoop, ih cls]

theorem kMeansIteration_length (pixels centroids : List RGB) :
    (kMeansIteration pixels centroids).1.length = centroids.length :=
  recalcLoop_length _ _

theorem iterateLoop_length (pixels : List RGB) : ∀ (n : Nat) (centroids : List RGB),
    (iterateLoop pixels n centroids).length = centroids.length := by
  intro n
  induction n with
  | zero =>
    intro centroids
    simp [iterateLoop]
  | succ n ih =>
    intro centroids
    simp only [iterateLoop]
    split_ifs
    · rw [ih, kMeansIteration_length]
    · exact kMeansIteration_length _ _

/-- kMeansCentroids on a sample of at least one pixel, when (k - 1) * pixelCount stays
within int: the seeding reads inside the sample and the function returns the sorted
centroids reached from the seeds. -/
theorem kMeansCentroids_eq (pixels : List RGB) (k maxIterations : Nat)
    (hn : 1 ≤ pixels.length) (hfit : (k - 1) * pixels.length ≤ 2147483647) :
    kMeansCentroids pixels k maxIterations =
      some (qsort (iterateLoop (qsort pixels) maxIterations
        (seedList (qsort pixels) pixels.length k k 0))) := by
  have h := seedLoop_eq (qsort pixels) pixels.length k (qsort_length pixels) hn hfit k 0
    (by omega)
  have h0 : ((0 : Nat) : Int) = 0 := rfl
  rw [h0] at h
  unfold kMeansCentroids
  simp only [h]

theorem kMeansCentroids_length (pixels : List RGB) (k maxIterations : Nat)
    (res : List RGB) (h : kMeansCentroids pixels k maxIterations = some res) :
    res.length = k := by
  unfold kMeansCentroids at h
  cases hs : seedLoop (qsort pixels) (pixels.length : Int) (k : Int) k 0 with
  | none => simp [hs] at h
  | some seeds =>
    simp only [hs, Option.some.injEq] at h
    rw [← h, qsort_length, iterateLoop_length]
    have : ∀ (m : Nat) (i : Int) (l : List RGB),
        seedLoop (qsort pixels) (pixels.length : Int) (k : Int) m i = some l → l.length = m := by
      intro m
      induction m with
      | zero =>
        intro i l hl
        simp only [seedLoop, Option.some.injEq] at hl
        rw [← hl]
        rfl
      | succ m ih =>
        intro i l hl
        rw [seedLoop] at hl
        cases hr : readRGB (qsort pixels) (seedIndex i (pixels.length : Int) (k : Int)) with
        | none => simp [hr] at hl
        | some c =>
          cases hrest : seedLoop (qsort pixels) (pixels.length : Int) (k : Int) m (i + 1) with
          | none => simp [hr, hrest] at hl
          | some cs =>
            simp only [hr, hrest, Option.some.injEq] at hl
            rw [← hl, List.length_cons, ih (i + 1) cs hrest]
    exact this k 0 seeds hs

/-! ## The frees of the array clusters -/

/-- The first pass of free over the array as malloc returned it reads a never-stored entry
as soon as there is one centroid. -/
theorem freeClusters_malloc (k : Nat) (hk : 1 ≤ k) : freeClusters (mallocClusters k) = none := by
  obtain ⟨n, rfl⟩ : ∃ n, k = n + 1 := ⟨k - 1, by omega⟩
  rfl

/-- A pass of free over entries that were all stored is defined. -/
theorem freeClusters_stored : ∀ clusters : List (List RGB),
    freeClusters (clusters.map some) = some (List.replicate clusters.length []) := by
  intro clusters
  induction clusters with
  | nil => rfl
  | cons cl cls ih => simp only [List.map_cons, freeClusters, ih, List.length_cons,
      List.replicate_succ]

/-- With at least one centroid kMeansClustering has no defined result, whatever the sample
and the iteration budget. -/
theorem kMeansClustering_undefined (pixels : List RGB) (k maxIterations : Nat) (hk : 1 ≤ k) :
    kMeansClustering pixels k maxIterations = none := by
  unfold kMeansClustering
  cases hs : seedLoop (qsort pixels) (pixels.length : Int) (k : Int) k 0 with
  | none => simp only [hs]
  | some seeds => simp only [hs, freeClusters_malloc k hk]

/-- Whenever kMeansClustering has a result, it is the centroid array of its arithmetic. -/
theorem kMeansClustering_some (pixels : List RGB) (k maxIterations : Nat) (res : List RGB)
    (h : kMeansClustering pixels k maxIterations = some res) :
    kMeansCentroids pixels k maxIterations = some res := by
  unfold kMeansClustering at h
  unfold kMeansCentroids
  cases hs : seedLoop (qsort pixels) (pixels.length : Int) (k : Int) k 0 with
  | none => simp [hs] at h
  | some seeds =>
    cases hf : freeClusters (mallocClusters k) with
    | none => simp [hs, hf] at h
    | some cleared =>
      simp only [hs, hf] at h
      simp only [hs]
      exact h

/-- A call that passes validation has no defined result: whatever the image, the
dimensions and the output array, kMeansClustering is reached with k = num_colors >= 1 and
frees clusters[0], which was never stored. -/
theorem extract_undefined (image_data : List Nat) (width height : Int) (out : List Color)
    (num_colors : Int) (hw : 0 < width) (hh : 0 < height) (hk : 0 < num_colors) :
    extract_dominant_colors (some image_data) width height (some out) num_colors = none := by
  have hcond : ¬ (width ≤ 0 ∨ height ≤ 0 ∨ num_colors ≤ 0) := by omega
  simp only [extract_dominant_colors, if_neg hcond]
  cases hs : samplePixels image_data width height with
  | none => rfl
  | some pixels =>
    simp only [kMeansClustering_undefined pixels num_colors.toNat 10 (by omega)]

/-! ## The copy to the output array -/

theorem copyLoop_eq : ∀ (dominant : List RGB) (out : List Color),
    dominant.length = out.length → copyLoop dominant out = some (dominant.map toColor) := by
  intro dominant
  induction dominant with
  | nil =>
    intro out h
    cases out with
    | nil => rfl
    | cons c cs => simp at h
  | cons d ds ih =>
    intro out h
    cases out with
    | nil => simp at h
    | cons c cs =>
      have hl : ds.length = cs.length := by simpa using h
      simp only [copyLoop, ih cs hl, List.map_cons]
      rfl

theorem toColor_lexLe (a b : RGB) (h : rgbLe a b) : colorLexLe (toColor a) (toColor b) := by
  rw [rgbLe_iff] at h
  exact h

/-! ## The arithmetic of a call on well-formed input -/

theorem sampleOf_length_pos (image_data : List Nat) (width height : Int)
    (hw : 0 < width) (hh : 0 < height) :
    1 ≤ (sampleOf image_data width height).length ∧
      ((sampleOf image_data width height).length : Int) = sampleSize (width * height) := by
  have hpos : 0 < width * height := Int.mul_pos hw hh
  obtain ⟨T, hT⟩ : ∃ T : Nat, width * height = (T : Int) :=
    ⟨(width * height).toNat, (Int.toNat_of_nonneg (le_of_lt hpos)).symm⟩
  unfold sampleOf
  rw [strideSample_length, hT, sampleSize_natCast, Int.toNat_ofNat]
  exact ⟨sampleSize_pos T (by omega), rfl⟩

/-- The arithmetic of the pipeline on well-formed input: positive dimensions with
3 * width * height within int, an image buffer of exactly that many bytes, num_colors > 0
with an output array of num_colors entries, and (num_colors - 1) * sample_size within int.
No read of the image or of the sample leaves its array and the output array would end as
the clustered sample. -/
theorem extractCentroids_valid (image_data : List Nat) (width height : Int) (out : List Color)
    (num_colors : Int) (hw : 0 < width) (hh : 0 < height)
    (hfit : width * height * 3 ≤ 2147483647)
    (hlen : (image_data.length : Int) = width * height * 3)
    (hk : 0 < num_colors) (hout : out.length = num_colors.toNat)
    (hseed : (num_colors - 1) * sampleSize (width * height) ≤ 2147483647) :
    extractCentroids image_data width height out num_colors =
      some ((clusterOf (sampleOf image_data width height) num_colors.toNat 10).map toColor) := by
  have hs := samplePixels_valid image_data width height hw hh hfit hlen
  obtain ⟨hn, hN⟩ := sampleOf_length_pos image_data width height hw hh
  obtain ⟨K, hK⟩ : ∃ K : Nat, num_colors = (K : Int) :=
    ⟨num_colors.toNat, (Int.toNat_of_nonneg (le_of_lt hk)).symm⟩
  rw [hK] at hk hout hseed ⊢
  rw [Int.toNat_ofNat] at hout ⊢
  rw [← hN] at hseed
  have hfitK : (K - 1) * (sampleOf image_data width height).length ≤ 2147483647 := by
    have e : ((K - 1 : Nat) : Int) = (K : Int) - 1 := by omega
    have : (((K - 1) * (sampleOf image_data width height).length : Nat) : Int) ≤ 2147483647 := by
      rw [Nat.cast_mul, e]
      exact hseed
    exact_mod_cast this
  have hkm := kMeansCentroids_eq (sampleOf image_data width height) K 10 hn hfitK
  have hs2 : samplePixels image_data width height = some (sampleOf image_data width height) := hs
  simp only [extractCentroids, hs2, Int.toNat_ofNat, hkm]
  apply copyLoop_eq
  rw [hout]
  exact kMeansCentroids_length _ K 10 _ hkm

theorem clusterOf_length (pixels : List RGB) (k maxIterations : Nat) :
    (clusterOf pixels k maxIterations).length = k := by
  unfold clusterOf
  rw [qsort_length, iterateLoop_length, seedList_length]

/-- On well-formed input the arithmetic of a call gives exactly num_colors output colours,
output i lexicographically at most output j whenever i < j. -/
theorem extractCentroids_sorted (image_data : List Nat) (width height : Int)
    (out : List Color) (num_colors : Int) (hw : 0 < width) (hh : 0 < height)
    (hfit : width * height * 3 ≤ 2147483647)
    (hlen : (image_data.length : Int) = width * height * 3)
    (hk : 0 < num_colors) (hout : out.length = num_colors.toNat)
    (hseed : (num_colors - 1) * sampleSize (width * height) ≤ 2147483647) :
    ∃ res, extractCentroids image_data width height out num_colors = some res ∧
      res.length = num_colors.toNat ∧ res.Pairwise colorLexLe := by
  refine ⟨_, extractCentroids_valid image_data width height out num_colors hw hh hfit hlen hk
    hout hseed, ?_, ?_⟩
  · rw [List.length_map, clusterOf_length]
  · rw [List.pairwise_map]
    exact (qsort_sorted _).imp (fun {a b} h => toColor_lexLe a b h)

/-! ## Seeding outside the int range -/

/-- The seeding loop has no result as soon as one of its reads falls outside the sample. -/
theorem seedLoop_none (pixels : List RGB) (pixelCount k : Int) :
    ∀ (m : Nat) (i : Int) (j : Nat), j < m →
      readRGB pixels (seedIndex (i + (j : Int)) pixelCount k) = none →
      seedLoop pixels pixelCount k m i = none := by
  intro m
  induction m with
  | zero =>
    intro i j hj _
    omega
  | succ m ih =>
    intro i j hj hread
    rw [seedLoop]
    cases hr : readRGB pixels (seedIndex i pixelCount k) with
    | none => rfl
    | some c =>
      cases j with
      | zero =>
        rw [Nat.cast_zero, Int.add_zero, hr] at hread
        exact Option.noConfusion hread
      | succ j =>
        have e : i + ((j + 1 : Nat) : Int) = i + 1 + (j : Int) := by push_cast; ring
        rw [e] at hread
        rw [ih (i + 1) j (by omega) hread]

theorem kMeansCentroids_none (pixels : List RGB) (k maxIterations j : Nat) (hj : j < k)
    (hread : readRGB (qsort pixels) (seedIndex (j : Int) (pixels.length : Int) (k : Int)) = none) :
    kMeansCentroids pixels k maxIterations = none := by
  have h := seedLoop_none (qsort pixels) (pixels.length : Int) (k : Int) k 0 j hj
    (by rw [Int.zero_add]; exact hread)
  unfold kMeansCentroids
  simp only [h]

/-- The arithmetic of a call has no result when the seeding of its sample reads outside the
sample. -/
theorem extractCentroids_none (image_data : List Nat) (width height : Int)
    (out : List Color) (num_colors : Int) (pixels : List RGB) (k : Nat)
    (hs : samplePixels image_data width height = some pixels)
    (hk : num_colors.toNat = k)
    (hnone : kMeansCentroids pixels k 10 = none) :
    extractCentroids image_data width height out num_colors = none := by
  subst hk
  simp only [extractCentroids, hs, hnone]

/-! ## The update step on one cluster -/

theorem sum_le_of_byte (l : List Nat) (h : ∀ x ∈ l, x < 256) : l.sum ≤ 255 * l.length := by
  induction l with
  | nil => simp
  | cons a t ih =>
    have ha : a < 256 := h a (List.mem_cons_self a t)
    have ht := ih (fun x hx => h x (List.mem_cons_of_mem a hx))
    simp only [List.sum_cons, List.length_cons]
    omega

theorem channelSum_natCast (f : RGB → Nat) (cluster : List RGB) :
    channelSum f cluster = (((cluster.map f).sum : Nat) : Int) := by
  unfold channelSum
  induction cluster with
  | nil => simp
  | cons a t ih =>
    simp only [List.map_cons, List.sum_cons, ih]
    push_cast
    rfl

/-- One channel of newCentroid is the truncated mean of the channel when the cluster holds
uint8_t values (the store into the uint8_t field loses nothing). -/
theorem newCentroid_channel (f : RGB → Nat) (cluster : List RGB)
    (hne : 1 ≤ cluster.length) (hb : ∀ p ∈ cluster, f p < 256) :
    toU8 (Int.tdiv (channelSum f cluster) (cluster.length : Int)) = channelMean f cluster := by
  have hs : (cluster.map f).sum ≤ 255 * (cluster.map f).length :=
    sum_le_of_byte _ (by
      intro x hx
      obtain ⟨p, hp, rfl⟩ := List.mem_map.mp hx
      exact hb p hp)
  rw [List.length_map] at hs
  have hlt : (cluster.map f).sum / cluster.length < 256 := by
    rw [Nat.div_lt_iff_lt_mul (by omega)]
    omega
  rw [channelSum_natCast, tdiv_natCast, toU8_natCast _ hlt]
  rfl

theorem newCentroid_eq_mean (cluster : List RGB) (hne : 1 ≤ cluster.length)
    (hb : ∀ p ∈ cluster, IsByteRGB p) :
    newCentroid cluster =
      { r := channelMean RGB.r cluster, g := channelMean RGB.g cluster,
        b := channelMean RGB.b cluster } := by
  unfold newCentroid
  rw [newCentroid_channel RGB.r cluster hne (fun p hp => (hb p hp).1),
    newCentroid_channel RGB.g cluster hne (fun p hp => (hb p hp).2.1),
    newCentroid_channel RGB.b cluster hne (fun p hp => (hb p hp).2.2)]

/-- The centroid after the recalculation of a non-empty cluster is its newCentroid, whether
or not the flag changed is raised. -/
theorem recalcCentroid_fst (c : RGB) (cluster : List RGB) (hne : 1 ≤ cluster.length) :
    (recalcCentroid c cluster).1 = newCentroid cluster := by
  unfold recalcCentroid
  rw [if_pos (by omega)]
  by_cases h : (newCentroid cluster).r ≠ c.r ∨ (newCentroid cluster).g ≠ c.g ∨
      (newCentroid cluster).b ≠ c.b
  · simp only [if_pos h]
  · simp only [if_neg h]
    have h1 : (newCentroid cluster).r = c.r := by
      by_contra hc
      exact h (Or.inl hc)
    have h2 : (newCentroid cluster).g = c.g := by
      by_contra hc
      exact h (Or.inr (Or.inl hc))
    have h3 : (newCentroid cluster).b = c.b := by
      by_contra hc
      exact h (Or.inr (Or.inr hc))
    cases c
    cases hnc : newCentroid cluster
    rw [hnc] at h1 h2 h3
    simp only at h1 h2 h3
    simp only [RGB.mk.injEq]
    exact ⟨h1.symm, h2.symm, h3.symm⟩

theorem recalcCentroid_self (cluster : List RGB) (hne : 1 ≤ cluster.length) :
    recalcCentroid (newCentroid cluster) cluster = (newCentroid cluster, false) := by
  unfold recalcCentroid
  rw [if_pos (by omega)]
  simp

theorem recalcCentroid_nil (c : RGB) : recalcCentroid c [] = (c, false) := by
  simp [recalcCentroid]

/-! ## Assignment when every pixel goes to centroid 0 -/

theorem assignLoop_all_zero (centroids : List RGB) :
    ∀ (ps : List RGB) (acc : List RGB) (rest : List (List RGB)),
      (∀ p ∈ ps, closestCentroid p centroids = 0) →
      assignLoop centroids ps (acc :: rest) = (acc ++ ps) :: rest := by
  intro ps
  induction ps with
  | nil =>
    intro acc rest _
    simp [assignLoop]
  | cons p ps ih =>
    intro acc rest h
    have h0 : closestCentroid p centroids = 0 := h p (List.mem_cons_self p ps)
    simp only [assignLoop, h0, appendAt]
    rw [ih (acc ++ [p]) rest (fun x hx => h x (List.mem_cons_of_mem p hx))]
    simp

theorem closestCentroid_singleton (p c : RGB) : closestCentroid p [c] = 0 := by
  simp [closestCentroid, nearestLoop, nearestStep, distLt]

/-! ## One colour -/

theorem kMeansIteration_singleton (pixels : List RGB) (c : RGB) (hne : 1 ≤ pixels.length) :
    (kMeansIteration pixels [c]).1 = [newCentroid pixels] := by
  have ha : assignPixels pixels [c] = [pixels] := by
    unfold assignPixels
    have := assignLoop_all_zero [c] pixels [] []
      (fun p _ => closestCentroid_singleton p c)
    simpa using this
  unfold kMeansIteration
  rw [ha]
  simp only [recalcLoop, recalcCentroid_fst c pixels hne]

theorem iterateLoop_singleton (pixels : List RGB) (hne : 1 ≤ pixels.length) :
    ∀ (n : Nat) (c : RGB), iterateLoop pixels (n + 1) [c] = [newCentroid pixels] := by
  intro n
  induction n with
  | zero =>
    intro c
    simp only [iterateLoop]
    split_ifs <;> exact kMeansIteration_singleton pixels c hne
  | succ n ih =>
    intro c
    rw [iterateLoop]
    split_ifs
    · rw [kMeansIteration_singleton pixels c hne]
      exact ih _
    · exact kMeansIteration_singleton pixels c hne

theorem qsort_singleton (c : RGB) : qsort [c] = [c] := rfl

theorem channelMean_perm (f : RGB → Nat) (xs ys : List RGB) (h : xs.Perm ys) :
    channelMean f xs = channelMean f ys := by
  unfold channelMean
  rw [(h.map f).sum_eq, h.length_eq]

/-- With k = 1 the clustering of a non-empty sample of uint8_t pixels returns the truncated
channel means of the sample. -/
theorem clusterOf_one (pixels : List RGB) (n : Nat) (hne : 1 ≤ pixels.length)
    (hb : ∀ p ∈ pixels, IsByteRGB p) :
    clusterOf pixels 1 (n + 1) =
      [{ r := channelMean RGB.r pixels, g := channelMean RGB.g pixels,
         b := channelMean RGB.b pixels }] := by
  have hq : 1 ≤ (qsort pixels).length := by rw [qsort_length]; exact hne
  have hbq : ∀ p ∈ qsort pixels, IsByteRGB p :=
    fun p hp => hb p ((qsort_perm pixels).mem_iff.mp hp)
  have hseed : seedList (qsort pixels) pixels.length 1 1 0 =
      [(qsort pixels).getD (0 * pixels.length / 1) { r := 0, g := 0, b := 0 }] := by
    rw [seedList_succ]
    simp [seedList]
  unfold clusterOf
  rw [hseed, iterateLoop_singleton (qsort pixels) hq n, qsort_singleton,
    newCentroid_eq_mean (qsort pixels) hq hbq,
    channelMean_perm RGB.r _ _ (qsort_perm pixels),
    channelMean_perm RGB.g _ _ (qsort_perm pixels),
    channelMean_perm RGB.b _ _ (qsort_perm pixels)]

theorem quantizeColor_isByte (c : RGB) (levels : Int) : IsByteRGB (quantizeColor c levels) :=
  ⟨quantizeChannel_lt _ _, quantizeChannel_lt _ _, quantizeChannel_lt _ _⟩

theorem sampleOf_isByte (image_data : List Nat) (width height : Int) :
    ∀ p ∈ sampleOf image_data width height, IsByteRGB p := by
  intro p hp
  unfold sampleOf strideSample at hp
  obtain ⟨j, _, rfl⟩ := List.mem_map.mp hp
  exact quantizeColor_isByte _ 5

/-- On every image that passes validation and whose 3 * width * height fits a 32-bit int,
the arithmetic of a call with num_colors = 1 gives one colour, each of whose channels is
floor(sum / n) of that channel over the n quantized samples (the sample is not empty and
is read without leaving the image buffer). -/
theorem extractCentroids_one_color (image_data : List Nat) (width height : Int)
    (out : List Color) (hw : 0 < width) (hh : 0 < height)
    (hfit : width * height * 3 ≤ 2147483647)
    (hlen : (image_data.length : Int) = width * height * 3) (hout : out.length = 1) :
    ∃ pixels, samplePixels image_data width height = some pixels ∧ 1 ≤ pixels.length ∧
      extractCentroids image_data width height out 1 =
        some [{ r := (pixels.map RGB.r).sum / pixels.length,
                g := (pixels.map RGB.g).sum / pixels.length,
                b := (pixels.map RGB.b).sum / pixels.length }] := by
  have hs := samplePixels_valid image_data width height hw hh hfit hlen
  obtain ⟨hn, _⟩ := sampleOf_length_pos image_data width height hw hh
  refine ⟨sampleOf image_data width height, hs, hn, ?_⟩
  have hv := extractCentroids_valid image_data width height out 1 hw hh hfit hlen (by decide)
    (by rw [hout]; rfl) (by rw [sub_self, zero_mul]; decide)
  have ht : (1 : Int).toNat = 1 := rfl
  rw [hv, ht, clusterOf_one _ 9 hn (sampleOf_isByte image_data width height)]
  rfl

/-! ## Images whose byte size leaves the int range -/

/-- The sampling loop stops before its first store when the defensive bound check holds
at pixel 0. -/
theorem sampleLoop_break (image_data : List Nat) (total_pixels step : Int) (n : Nat)
    (hpos : 0 < total_pixels)
    (hb : wrap32 (wrap32 (0 * 3) + 2) ≥ wrap32 (total_pixels * 3)) :
    sampleLoop image_data total_pixels step (n + 1) 0 = some [] := by
  rw [sampleLoop]
  simp only [if_pos hpos, if_pos hb]

theorem samplePixels_empty (image_data : List Nat) (width height : Int) (n : Nat)
    (hn : (sampleSize (wrap32 (width * height))).toNat = n + 1)
    (hpos : 0 < wrap32 (width * height))
    (hb : wrap32 (wrap32 (0 * 3) + 2) ≥ wrap32 (wrap32 (width * height) * 3)) :
    samplePixels image_data width height = some [] := by
  unfold samplePixels
  simp only [hn]
  exact sampleLoop_break image_data _ _ n hpos hb

theorem readRGB_nil (idx : Int) : readRGB [] idx = none := by
  unfold readRGB
  split_ifs <;> rfl

/-- The clustering of an empty sample reads pixels[0] for its first seed. -/
theorem kMeansCentroids_nil (k maxIterations : Nat) (hk : 1 ≤ k) :
    kMeansCentroids [] k maxIterations = none :=
  kMeansCentroids_none [] k maxIterations 0 (by omega) (readRGB_nil _)

/-- The int range bounds the image size: for a 1000000000 x 1 image the pixel count fits an
int, but total_pixels * 3 wraps to a negative int, the bound check index + 2 >=
total_pixels * 3 holds at pixel 0, the sample stays empty and the seeding reads pixels[0],
which was never stored. -/
theorem extractCentroids_huge_image :
    (1000000000 : Int) * 1 ≤ 2147483647 ∧
      ((List.replicate 3000000000 (0 : Nat)).length : Int) = 1000000000 * 1 * 3 ∧
      wrap32 (wrap32 (1000000000 * 1) * 3) = -1294967296 ∧
      samplePixels (List.replicate 3000000000 0) 1000000000 1 = some [] ∧
      ∀ out : List Color,
        extractCentroids (List.replicate 3000000000 0) 1000000000 1 out 1 = none := by
  have hs : samplePixels (List.replicate 3000000000 0) 1000000000 1 = some [] :=
    samplePixels_empty _ 1000000000 1 9999 (by decide) (by decide) (by decide)
  have hl : ((List.replicate 3000000000 (0 : Nat)).length : Int) = 1000000000 * 1 * 3 := by
    rw [List.length_replicate]
    decide
  refine ⟨by decide, hl, by decide, hs, ?_⟩
  intro out
  have ht : (1 : Int).toNat = 1 := rfl
  exact extractCentroids_none _ 1000000000 1 out 1 [] 1 hs ht
    (kMeansCentroids_nil 1 10 (le_refl 1))

/-! ## Uniform images -/

theorem colorDistance_nonneg (p c : RGB) : 0 ≤ colorDistance p c := by
  unfold colorDistance
  exact add_nonneg (add_nonneg (mul_self_nonneg _) (mul_self_nonneg _)) (mul_self_nonneg _)

theorem colorDistance_self (p : RGB) : colorDistance p p = 0 := by
  unfold colorDistance
  simp

theorem distAt_nonneg (p : RGB) (centroids : List RGB) (i : Nat) :
    0 ≤ distAt p centroids i := by
  unfold distAt
  split
  · exact colorDistance_nonneg _ _
  · exact le_refl 0

/-- A pixel at distance 0 from centroid 0 is assigned to centroid 0. -/
theorem closestCentroid_zero (p c0 : RGB) (centroids : List RGB)
    (h0 : centroids[0]? = some c0) (hd : colorDistance p c0 = 0) :
    closestCentroid p centroids = 0 := by
  rcases closestCentroid_inv p centroids with ⟨_, hst⟩ | ⟨_, _, _, hlow⟩
  · unfold closestCentroid
    rw [hst]
  · by_contra hne
    have hpos : 0 < closestCentroid p centroids := Nat.pos_of_ne_zero hne
    have h1 := hlow 0 hpos
    rw [distAt_of_getElem? p centroids 0 c0 h0, hd] at h1
    have h2 := distAt_nonneg p centroids (closestCentroid p centroids)
    change 0 ≤ distAt p centroids (closestCentroid p centroids) at h2
    change distAt p centroids (closestCentroid p centroids) < 0 at h1
    omega

theorem channelMean_replicate (f : RGB → Nat) (q : RGB) (n : Nat) (hn : 1 ≤ n) :
    channelMean f (List.replicate n q) = f q := by
  unfold channelMean
  rw [List.map_replicate, List.sum_replicate, List.length_replicate, smul_eq_mul,
    Nat.mul_div_cancel_left _ (by omega)]

theorem newCentroid_replicate (q : RGB) (n : Nat) (hn : 1 ≤ n) (hq : IsByteRGB q) :
    newCentroid (List.replicate n q) = q := by
  rw [newCentroid_eq_mean _ (by rw [List.length_replicate]; exact hn)
    (fun p hp => by rw [List.eq_of_mem_replicate hp]; exact hq),
    channelMean_replicate _ _ _ hn, channelMean_replicate _ _ _ hn,
    channelMean_replicate _ _ _ hn]

theorem recalcLoop_empty_clusters (q : RGB) : ∀ (m : Nat),
    recalcLoop (List.replicate m q) (List.replicate m []) = (List.replicate m q, false) := by
  intro m
  induction m with
  | zero => simp [recalcLoop]
  | succ m ih =>
    simp only [List.replicate_succ, recalcLoop, recalcCentroid_nil, ih, Bool.or_self]

/-- One iteration on a sample of n copies of q from k centroids all equal to q: every pixel
goes to centroid 0, no centroid changes. -/
theorem kMeansIteration_uniform (q : RGB) (n k : Nat) (hn : 1 ≤ n) (hq : IsByteRGB q) :
    kMeansIteration (List.replicate n q) (List.replicate (k + 1) q) =
      (List.replicate (k + 1) q, false) := by
  have hz : ∀ p ∈ List.replicate n q, closestCentroid p (List.replicate (k + 1) q) = 0 := by
    intro p hp
    rw [List.eq_of_mem_replicate hp]
    exact closestCentroid_zero q q _ (by simp [List.replicate_succ]) (colorDistance_self q)
  have ha : assignPixels (List.replicate n q) (List.replicate (k + 1) q) =
      List.replicate n q :: List.replicate k [] := by
    unfold assignPixels
    rw [List.length_replicate]
    have e : List.replicate (k + 1) ([] : List RGB) = [] :: List.replicate k [] :=
      List.replicate_succ _ _
    rw [e, assignLoop_all_zero _ (List.replicate n q) [] (List.replicate k []) hz]
    simp
  have hself : recalcCentroid q (List.replicate n q) = (q, false) := by
    have h := recalcCentroid_self (List.replicate n q) (by rw [List.length_replicate]; exact hn)
    rw [newCentroid_replicate q n hn hq] at h
    exact h
  unfold kMeansIteration
  rw [ha, List.replicate_succ]
  simp only [recalcLoop, hself, recalcLoop_empty_clusters, Bool.or_self]

theorem iterateLoop_uniform (q : RGB) (n k m : Nat) (hn : 1 ≤ n) (hq : IsByteRGB q) :
    iterateLoop (List.replicate n q) m (List.replicate (k + 1) q) =
      List.replicate (k + 1) q := by
  cases m with
  | zero => rfl
  | succ m =>
    rw [iterateLoop, kMeansIteration_uniform q n k hn hq]
    simp

theorem qsort_replicate (q : RGB) (n : Nat) : qsort (List.replicate n q) = List.replicate n q :=
  qsort_of_sorted _ (List.pairwise_replicate.mpr (Or.inr (rgbLe_refl q)))

theorem seedList_replicate (q : RGB) (n k : Nat) (hn : 1 ≤ n) :
    seedList (List.replicate n q) n k k 0 = List.replicate k q := by
  unfold seedList
  rw [List.eq_replicate_iff]
  refine ⟨by simp, ?_⟩
  intro b hb
  obtain ⟨j, hj, rfl⟩ := List.mem_map.mp hb
  have hjk : j < k := List.mem_range.mp hj
  have hlt : (0 + j) * n / k < (List.replicate n q).length := by
    rw [List.length_replicate, Nat.zero_add]
    exact seedIndex_lt j n k hjk hn
  rw [List.getD_eq_getElem _ _ hlt, List.getElem_replicate]

/-- The clustering of n >= 1 copies of a uint8_t colour q into k >= 1 colours gives k
copies of q. -/
theorem clusterOf_replicate (q : RGB) (n k m : Nat) (hn : 1 ≤ n) (hk : 1 ≤ k)
    (hq : IsByteRGB q) :
    clusterOf (List.replicate n q) k m = List.replicate k q := by
  obtain ⟨k, rfl⟩ : ∃ k0, k = k0 + 1 := ⟨k - 1, by omega⟩
  unfold clusterOf
  rw [qsort_replicate, List.length_replicate, seedList_replicate q n (k + 1) hn,
    iterateLoop_uniform q n k m hn hq, qsort_replicate]

/-- The sample of a well-formed image all of whose pixels are c holds only the quantized
c. -/
theorem sampleOf_uniform (image_data : List Nat) (width height : Int) (c : RGB)
    (hw : 0 < width) (hh : 0 < height)
    (huni : ∀ j, j < (width * height).toNat → pixelAt image_data j = c) :
    sampleOf image_data width height =
      List.replicate (sampleOf image_data width height).length (quantizeColor c 5) := by
  have hpos : 0 < width * height := Int.mul_pos hw hh
  obtain ⟨T, hT⟩ : ∃ T : Nat, width * height = (T : Int) :=
    ⟨(width * height).toNat, (Int.toNat_of_nonneg (le_of_lt hpos)).symm⟩
  rw [hT, Int.toNat_ofNat] at huni
  have hT1 : 1 ≤ T := by omega
  rw [List.eq_replicate_iff]
  refine ⟨rfl, ?_⟩
  intro b hb
  unfold sampleOf strideSample at hb
  rw [hT, sampleStep_natCast, sampleSize_natCast, Int.toNat_ofNat, Int.toNat_ofNat] at hb
  have hbs := stepNat_bounds T hT1
  generalize (if 0 < T / 10000 then T / 10000 else 1) = s at hb hbs
  obtain ⟨j, hj, rfl⟩ := List.mem_map.mp hb
  have hjn : j < T / s := List.mem_range.mp hj
  have h1 : (j + 1) * s ≤ T / s * s := Nat.mul_le_mul_right s hjn
  have h2 : T / s * s ≤ T := Nat.div_mul_le_self T s
  have h3 : (j + 1) * s = j * s + s := Nat.succ_mul j s
  rw [huni (0 + j * s) (by omega)]

/-- On every well-formed image (passing validation, 3 * width * height within a 32-bit
int) all of whose pixels have the colour c, and every num_colors >= 1 with
(num_colors - 1) * sample_size within a 32-bit int, the arithmetic of a call makes every one
of the num_colors output entries quantizeColor(c, 5). -/
theorem extractCentroids_uniform (image_data : List Nat) (width height : Int)
    (out : List Color) (num_colors : Int) (c : RGB) (hw : 0 < width) (hh : 0 < height)
    (hfit : width * height * 3 ≤ 2147483647)
    (hlen : (image_data.length : Int) = width * height * 3)
    (hk : 1 ≤ num_colors) (hout : out.length = num_colors.toNat)
    (hseed : (num_colors - 1) * sampleSize (width * height) ≤ 2147483647)
    (huni : ∀ j, j < (width * height).toNat → pixelAt image_data j = c) :
    extractCentroids image_data width height out num_colors =
      some (List.replicate num_colors.toNat (toColor (quantizeColor c 5))) := by
  have hv := extractCentroids_valid image_data width height out num_colors hw hh hfit hlen
    (by omega) hout hseed
  obtain ⟨hn, _⟩ := sampleOf_length_pos image_data width height hw hh
  rw [hv, sampleOf_uniform image_data width height c hw hh huni,
    clusterOf_replicate _ _ _ 10 hn (by omega) (quantizeColor_isByte c 5),
    List.map_replicate]

/-- The value the spec gives for the 4 x 4 image of (200, 10, 10): (153, 0, 0). -/
theorem quantizeColor_200_10_10 :
    toColor (quantizeColor { r := 200, g := 10, b := 10 } 5) = { r := 153, g := 0, b := 0 } := by
  decide

theorem getD_replicate_zero (n i : Nat) : (List.replicate n (0 : Nat)).getD i 0 = 0 := by
  by_cases h : i < (List.replicate n (0 : Nat)).length
  · rw [List.getD_eq_getElem _ _ h, List.getElem_replicate]
  · rw [List.getD_eq_default _ _ (by omega)]

theorem pixelAt_replicate_zero (n j : Nat) :
    pixelAt (List.replicate n 0) j = { r := 0, g := 0, b := 0 } := by
  unfold pixelAt
  rw [getD_replicate_zero, getD_replicate_zero, getD_replicate_zero]

/-! ## Independence of the prior contents of the output array -/

/-- The zero fill of the validation-failure path does not depend on what an output array
of num_colors entries held before. -/
theorem memsetZero_independent (num_colors : Int) (hint : num_colors ≤ 2147483647)
    (out1 out2 : List Color) (h1 : out1.length = num_colors.toNat)
    (h2 : out2.length = num_colors.toNat) :
    memsetZero out1 (zeroFillBytes num_colors) = memsetZero out2 (zeroFillBytes num_colors) := by
  by_cases hpos : 0 < num_colors
  · have hz := zeroFillBytes_of_nonneg num_colors (le_of_lt hpos) hint
    have e1 : zeroFillBytes num_colors = 3 * out1.length := by rw [hz, h1]
    have e2 : zeroFillBytes num_colors = 3 * out2.length := by rw [hz, h2]
    have r1 := memsetZero_all out1
    have r2 := memsetZero_all out2
    rw [← e1] at r1
    rw [← e2] at r2
    rw [r1, r2, h1, h2]
  · have hn : num_colors.toNat = 0 := by omega
    rw [hn] at h1 h2
    rw [List.length_eq_zero.mp h1, List.length_eq_zero.mp h2]

/-- The arithmetic of a call does not depend on what an output array of num_colors entries
held before. -/
theorem extractCentroids_independent (image_data : List Nat) (width height : Int)
    (num_colors : Int) (out1 out2 : List Color)
    (h1 : out1.length = num_colors.toNat) (h2 : out2.length = num_colors.toNat) :
    extractCentroids image_data width height out1 num_colors =
      extractCentroids image_data width height out2 num_colors := by
  unfold extractCentroids
  cases hs : samplePixels image_data width height with
  | none => rfl
  | some pixels =>
    cases hk : kMeansCentroids pixels num_colors.toNat 10 with
    | none => simp only [hk]
    | some dominant =>
      have hl := kMeansCentroids_length pixels num_colors.toNat 10 dominant hk
      simp only [hk]
      rw [copyLoop_eq dominant out1 (by rw [hl, h1]),
        copyLoop_eq dominant out2 (by rw [hl, h2])]

/-! ## compareRGB as the lexicographic order -/

theorem RGB.eq_of_channels (a b : RGB) (hr : a.r = b.r) (hg : a.g = b.g) (hb : a.b = b.b) :
    a = b := by
  cases a
  cases b
  simp only [RGB.mk.injEq]
  exact ⟨hr, hg, hb⟩

theorem compareRGB_neg_iff (a b : RGB) : compareRGB a b < 0 ↔ rgbLexLt a b := by
  unfold compareRGB rgbLexLt
  split_ifs <;> omega

theorem compareRGB_pos_iff (a b : RGB) : 0 < compareRGB a b ↔ rgbLexLt b a := by
  unfold compareRGB rgbLexLt
  split_ifs <;> omega

theorem compareRGB_zero_iff (a b : RGB) : compareRGB a b = 0 ↔ a = b := by
  constructor
  · intro h
    unfold compareRGB at h
    split_ifs at h with h1 h2
    · omega
    · omega
    · exact RGB.eq_of_channels a b (by omega) (by omega) (by omega)
  · intro h
    subst h
    simp [compareRGB]

theorem rgbLe_antisymm (a b : RGB) (h1 : rgbLe a b) (h2 : rgbLe b a) : a = b := by
  rw [rgbLe_iff] at h1 h2
  exact RGB.eq_of_channels a b (by omega) (by omega) (by omega)

/-- C20: compareRGB is negative exactly when a is lexicographically below b on (r, g, b),
zero exactly when a and b agree on all three channels, positive exactly when a is
lexicographically above b; the relation compareRGB <= 0 is total, antisymmetric and
transitive. -/
theorem compareRGB_lexicographic (a b c : RGB) :
    (compareRGB a b < 0 ↔ rgbLexLt a b) ∧ (compareRGB a b = 0 ↔ a = b) ∧
      (0 < compareRGB a b ↔ rgbLexLt b a) ∧
      (compareRGB a b ≤ 0 ∨ compareRGB b a ≤ 0) ∧
      (compareRGB a b ≤ 0 → compareRGB b a ≤ 0 → a = b) ∧
      (compareRGB a b ≤ 0 → compareRGB b c ≤ 0 → compareRGB a c ≤ 0) :=
  ⟨compareRGB_neg_iff a b, compareRGB_zero_iff a b, compareRGB_pos_iff a b,
    rgbLe_total a b, rgbLe_antisymm a b, rgbLe_trans a b c⟩

/-! ## The tie-break disjunct of the nearest-centroid search -/

/-- In a state the search can be in at centroid j, the second disjunct is false. -/
theorem tieDisjunct_false (p : RGB) (f : Nat → Int) (j : Nat) (st : Nearest) (c : RGB)
    (hinv : NearestInv f j st) : tieDisjunct p st j c = false := by
  unfold tieDisjunct
  rcases hinv with ⟨_, hst⟩ | ⟨hlt, _, _, _⟩
  · rw [hst]
    simp [distEq]
  · have hnot : ¬ j < st.closestCentroid := by omega
    simp [hnot]

theorem nearestStepStrict_eq (p : RGB) (f : Nat → Int) (j : Nat) (st : Nearest) (c : RGB)
    (hinv : NearestInv f j st) : nearestStepStrict p st j c = nearestStep p st j c := by
  have h := tieDisjunct_false p f j st c hinv
  unfold tieDisjunct at h
  unfold nearestStepStrict nearestStep
  simp only [h, Bool.or_false]

theorem nearestLoopStrict_eq (p : RGB) (f : Nat → Int) :
    ∀ (cs : List RGB) (j : Nat) (st : Nearest), NearestInv f j st →
      (∀ i c, cs[i]? = some c → colorDistance p c = f (j + i)) →
      nearestLoopStrict p cs j st = nearestLoop p cs j st ∧
        tieDisjunctLoop p cs j st = false := by
  intro cs
  induction cs with
  | nil =>
    intro j st _ _
    exact ⟨rfl, rfl⟩
  | cons c cs ih =>
    intro j st hinv hf
    have h0 : colorDistance p c = f j := by
      have := hf 0 c (by simp)
      simpa using this
    have hstep := nearestStep_inv p f j st c hinv h0
    have htail : ∀ i d, cs[i]? = some d → colorDistance p d = f (j + 1 + i) := by
      intro i d hd
      have := hf (i + 1) d (by simpa using hd)
      rw [this]
      congr 1
      omega
    obtain ⟨ih1, ih2⟩ := ih (j + 1) (nearestStep p st j c) hstep htail
    constructor
    · simp only [nearestLoopStrict, nearestLoop]
      rw [nearestStepStrict_eq p f j st c hinv, ih1]
    · simp only [tieDisjunctLoop]
      rw [tieDisjunct_false p f j st c hinv, ih2]
      rfl

/-- C17: in the nearest-centroid search the second disjunct of the update condition is
true at no step, for every pixel and every centroid array, and the search with the
condition distance < minDistance alone selects the same centroid index. -/
theorem tie_disjunct_unreachable (p : RGB) (centroids : List RGB) :
    tieDisjunctReached p centroids = false ∧
      closestCentroidStrict p centroids = closestCentroid p centroids := by
  obtain ⟨h1, h2⟩ := nearestLoopStrict_eq p (distAt p centroids) centroids 0
    { minDistance := none, closestCentroid := 0 } (Or.inl ⟨rfl, rfl⟩)
    (by
      intro i c hc
      rw [Nat.zero_add]
      exact (distAt_of_getElem? p centroids i c hc).symm)
  refine ⟨h2, ?_⟩
  unfold closestCentroidStrict closestCentroid
  rw [h1]

/-! ## The clusters built by the assignment step -/

theorem appendAt_length : ∀ (clusters : List (List RGB)) (j : Nat) (p : RGB),
    (appendAt clusters j p).length = clusters.length := by
  intro clusters
  induction clusters with
  | nil =>
    intro j p
    rfl
  | cons cl cls ih =>
    intro j p
    cases j with
    | zero => rfl
    | succ j => simp only [appendAt, List.length_cons, ih j p]

theorem assignLoop_length (centroids : List RGB) :
    ∀ (ps : List RGB) (clusters : List (List RGB)),
      (assignLoop centroids ps clusters).length = clusters.length := by
  intro ps
  induction ps with
  | nil =>
    intro clusters
    rfl
  | cons p ps ih =>
    intro clusters
    simp only [assignLoop]
    rw [ih, appendAt_length]

theorem assignPixels_length (pixels centroids : List RGB) :
    (assignPixels pixels centroids).length = centroids.length := by
  unfold assignPixels
  rw [assignLoop_length, List.length_replicate]

theorem appendAt_getElem? : ∀ (clusters : List (List RGB)) (j i : Nat) (p : RGB),
    (appendAt clusters j p)[i]? =
      (clusters[i]?).map (fun cl => if j = i then cl ++ [p] else cl) := by
  intro clusters
  induction clusters with
  | nil =>
    intro j i p
    simp [appendAt]
  | cons cl cls ih =>
    intro j i p
    cases j with
    | zero =>
      cases i with
      | zero => simp [appendAt]
      | succ i =>
        simp only [appendAt, List.getElem?_cons_succ]
        cases cls[i]? <;> simp
    | succ j =>
      cases i with
      | zero => simp [appendAt]
      | succ i =>
        simp only [appendAt, List.getElem?_cons_succ]
        rw [ih j i p]
        cases cls[i]? <;> simp

/-- Cluster i after the assignment loop is cluster i before it followed by the pixels of
the loop whose closest centroid is i, in order. -/
theorem assignLoop_getElem? (centroids : List RGB) :
    ∀ (ps : List RGB) (clusters : List (List RGB)) (i : Nat),
      (assignLoop centroids ps clusters)[i]? =
        (clusters[i]?).map (fun cl => cl ++ assignedTo ps centroids i) := by
  intro ps
  induction ps with
  | nil =>
    intro clusters i
    cases h : clusters[i]? <;> simp [assignLoop, assignedTo, h]
  | cons p ps ih =>
    intro clusters i
    simp only [assignLoop]
    rw [ih, appendAt_getElem?]
    cases h : clusters[i]? with
    | none => rfl
    | some cl =>
      simp only [Option.map_some']
      by_cases hj : closestCentroid p centroids = i
      · simp [assignedTo, hj, List.filter_cons]
      · simp [assignedTo, hj, List.filter_cons]

theorem assignPixels_getElem? (pixels centroids : List RGB) (i : Nat)
    (hi : i < centroids.length) :
    (assignPixels pixels centroids)[i]? = some (assignedTo pixels centroids i) := by
  unfold assignPixels
  rw [assignLoop_getElem?, List.getElem?_eq_getElem (by rw [List.length_replicate]; exact hi),
    List.getElem_replicate]
  simp

theorem appendAt_flatten_perm : ∀ (clusters : List (List RGB)) (j : Nat) (p : RGB),
    j < clusters.length → (appendAt clusters j p).flatten.Perm (p :: clusters.flatten) := by
  intro clusters
  induction clusters with
  | nil =>
    intro j p h
    simp at h
  | cons cl cls ih =>
    intro j p h
    cases j with
    | zero =>
      simp only [appendAt, List.flatten_cons, List.append_assoc, List.singleton_append]
      exact List.perm_middle
    | succ j =>
      have hj : j < cls.length := by simpa using h
      simp only [appendAt, List.flatten_cons]
      exact ((ih j p hj).append_left cl).trans List.perm_middle

theorem assignLoop_flatten_perm (centroids : List RGB) :
    ∀ (ps : List RGB) (clusters : List (List RGB)),
      (∀ p ∈ ps, closestCentroid p centroids < clusters.length) →
      (assignLoop centroids ps clusters).flatten.Perm (clusters.flatten ++ ps) := by
  intro ps
  induction ps with
  | nil =>
    intro clusters _
    simp [assignLoop]
  | cons p ps ih =>
    intro clusters h
    have hp := h p (List.mem_cons_self p ps)
    have hrest : ∀ q ∈ ps, closestCentroid q centroids <
        (appendAt clusters (closestCentroid p centroids) p).length := by
      intro q hq
      rw [appendAt_length]
      exact h q (List.mem_cons_of_mem p hq)
    simp only [assignLoop]
    refine (ih _ hrest).trans ?_
    refine ((appendAt_flatten_perm clusters _ p hp).append_right ps).trans ?_
    simp only [List.cons_append]
    exact List.perm_middle.symm

theorem flatten_replicate_nil (n : Nat) :
    (List.replicate n ([] : List RGB)).flatten = [] := by
  induction n with
  | zero => rfl
  | succ n ih => simp [List.replicate_succ, ih]

theorem assignPixels_flatten_perm (pixels centroids : List RGB) (hk : 1 ≤ centroids.length) :
    (assignPixels pixels centroids).flatten.Perm pixels := by
  unfold assignPixels
  have h := assignLoop_flatten_perm centroids pixels (List.replicate centroids.length [])
    (by
      intro p _
      rw [List.length_replicate]
      exact closestCentroid_lt p centroids hk)
  rw [flatten_replicate_nil, List.nil_append] at h
  exact h

/-- C19: after the assignment step over k >= 1 centroids every sample belongs to exactly
one cluster: each assigned index is below k, there are k clusters, cluster i holds the
samples whose assigned index is i, the cluster sizes sum to the sample count, and the
concatenation of the cluster lists is a permutation of the sample. -/
theorem assignment_partition (pixels centroids : List RGB) (hk : 1 ≤ centroids.length) :
    (∀ p ∈ pixels, closestCentroid p centroids < centroids.length) ∧
      (assignPixels pixels centroids).length = centroids.length ∧
      (∀ i, i < centroids.length →
        (assignPixels pixels centroids)[i]? = some (assignedTo pixels centroids i)) ∧
      ((assignPixels pixels centroids).map List.length).sum = pixels.length ∧
      (assignPixels pixels centroids).flatten.Perm pixels := by
  have hperm := assignPixels_flatten_perm pixels centroids hk
  refine ⟨fun p _ => closestCentroid_lt p centroids hk, assignPixels_length pixels centroids,
    fun i hi => assignPixels_getElem? pixels centroids i hi, ?_, hperm⟩
  rw [← List.length_flatten]
  exact hperm.length_eq

theorem assignment_partition_witness :
    (∀ p ∈ [({ r := 0, g := 0, b := 0 } : RGB), { r := 204, g := 204, b := 204 },
          { r := 51, g := 0, b := 0 }],
        closestCentroid p [{ r := 0, g := 0, b := 0 }, { r := 204, g := 204, b := 204 }] <
          [({ r := 0, g := 0, b := 0 } : RGB), { r := 204, g := 204, b := 204 }].length) ∧
      (assignPixels [{ r := 0, g := 0, b := 0 }, { r := 204, g := 204, b := 204 },
          { r := 51, g := 0, b := 0 }]
        [{ r := 0, g := 0, b := 0 }, { r := 204, g := 204, b := 204 }]).length =
        [({ r := 0, g := 0, b := 0 } : RGB), { r := 204, g := 204, b := 204 }].length ∧
      (∀ i, i < [({ r := 0, g := 0, b := 0 } : RGB), { r := 204, g := 204, b := 204 }].length →
        (assignPixels [{ r := 0, g := 0, b := 0 }, { r := 204, g := 204, b := 204 },
            { r := 51, g := 0, b := 0 }]
          [{ r := 0, g := 0, b := 0 }, { r := 204, g := 204, b := 204 }])[i]? =
          some (assignedTo [{ r := 0, g := 0, b := 0 }, { r := 204, g := 204, b := 204 },
              { r := 51, g := 0, b := 0 }]
            [{ r := 0, g := 0, b := 0 }, { r := 204, g := 204, b := 204 }] i)) ∧
      ((assignPixels [{ r := 0, g := 0, b := 0 }, { r := 204, g := 204, b := 204 },
          { r := 51, g := 0, b := 0 }]
        [{ r := 0, g := 0, b := 0 }, { r := 204, g := 204, b := 204 }]).map List.length).sum =
        [({ r := 0, g := 0, b := 0 } : RGB), { r := 204, g := 204, b := 204 },
          { r := 51, g := 0, b := 0 }].length ∧
      (assignPixels [{ r := 0, g := 0, b := 0 }, { r := 204, g := 204, b := 204 },
          { r := 51, g := 0, b := 0 }]
        [{ r := 0, g := 0, b := 0 }, { r := 204, g := 204, b := 204 }]).flatten.Perm
        [{ r := 0, g := 0, b := 0 }, { r := 204, g := 204, b := 204 },
          { r := 51, g := 0, b := 0 }] :=
  assignment_partition
    [{ r := 0, g := 0, b := 0 }, { r := 204, g := 204, b := 204 }, { r := 51, g := 0, b := 0 }]
    [{ r := 0, g := 0, b := 0 }, { r := 204, g := 204, b := 204 }] (by decide)

/-! ## The update step, centroid by centroid -/

theorem recalcLoop_getElem? : ∀ (centroids : List RGB) (clusters : List (List RGB)) (i : Nat)
    (c : RGB) (cl : List RGB), centroids[i]? = some c → clusters[i]? = some cl →
    (recalcLoop centroids clusters).1[i]? = some (recalcCentroid c cl).1 := by
  intro centroids
  induction centroids with
  | nil =>
    intro clusters i c cl hc _
    simp at hc
  | cons c0 cs ih =>
    intro clusters i c cl hc hcl
    cases clusters with
    | nil => simp at hcl
    | cons cl0 cls =>
      cases i with
      | zero =>
        simp only [List.getElem?_cons_zero, Option.some.injEq] at hc hcl
        subst hc
        subst hcl
        simp [recalcLoop]
      | succ i =>
        simp only [List.getElem?_cons_succ] at hc hcl
        simp only [recalcLoop, List.getElem?_cons_succ]
        exact ih cls i c cl hc hcl

theorem recalcCentroid_of_nil (c : RGB) (cl : List RGB) (h : cl = []) :
    (recalcCentroid c cl).1 = c := by
  rw [h, recalcCentroid_nil]

theorem assignedTo_isByte (pixels centroids : List RGB) (i : Nat)
    (hb : ∀ p ∈ pixels, IsByteRGB p) : ∀ p ∈ assignedTo pixels centroids i, IsByteRGB p := by
  intro p hp
  unfold assignedTo at hp
  exact hb p (List.mem_filter.mp hp).1

/-- C11: in one iteration over uint8_t samples, for every centroid index i: if at least
one sample was assigned to i, each channel of the centroid afterwards is floor(sum of
that channel over the samples assigned to i / their number); if no sample was assigned to
i, the centroid afterwards is the centroid before. -/
theorem centroid_update (pixels centroids : List RGB) (i : Nat) (c : RGB)
    (hb : ∀ p ∈ pixels, IsByteRGB p) (hc : centroids[i]? = some c) :
    (1 ≤ (assignedTo pixels centroids i).length →
        (kMeansIteration pixels centroids).1[i]? =
          some { r := ((assignedTo pixels centroids i).map RGB.r).sum /
                   (assignedTo pixels centroids i).length,
                 g := ((assignedTo pixels centroids i).map RGB.g).sum /
                   (assignedTo pixels centroids i).length,
                 b := ((assignedTo pixels centroids i).map RGB.b).sum /
                   (assignedTo pixels centroids i).length }) ∧
      ((assignedTo pixels centroids i).length = 0 →
        (kMeansIteration pixels centroids).1[i]? = some c) := by
  have hi : i < centroids.length := by
    by_contra hcon
    rw [List.getElem?_eq_none (by omega)] at hc
    exact Option.noConfusion hc
  have hcl := assignPixels_getElem? pixels centroids i hi
  have hget := recalcLoop_getElem? centroids (assignPixels pixels centroids) i c _ hc hcl
  constructor
  · intro hne
    unfold kMeansIteration
    rw [hget, recalcCentroid_fst c _ hne,
      newCentroid_eq_mean _ hne (assignedTo_isByte pixels centroids i hb)]
    rfl
  · intro hempty
    unfold kMeansIteration
    rw [hget, recalcCentroid_of_nil c _ (List.length_eq_zero.mp hempty)]

theorem centroid_update_witness :
    (1 ≤ (assignedTo [{ r := 0, g := 0, b := 0 }, { r := 204, g := 204, b := 204 },
          { r := 51, g := 0, b := 0 }]
        [{ r := 0, g := 0, b := 0 }, { r := 204, g := 204, b := 204 }] 0).length →
        (kMeansIteration [{ r := 0, g := 0, b := 0 }, { r := 204, g := 204, b := 204 },
            { r := 51, g := 0, b := 0 }]
          [{ r := 0, g := 0, b := 0 }, { r := 204, g := 204, b := 204 }]).1[0]? =
          some { r := ((assignedTo [{ r := 0, g := 0, b := 0 }, { r := 204, g := 204, b := 204 },
                     { r := 51, g := 0, b := 0 }]
                   [{ r := 0, g := 0, b := 0 }, { r := 204, g := 204, b := 204 }] 0).map RGB.r).sum /
                   (assignedTo [{ r := 0, g := 0, b := 0 }, { r := 204, g := 204, b := 204 },
                     { r := 51, g := 0, b := 0 }]
                   [{ r := 0, g := 0, b := 0 }, { r := 204, g := 204, b := 204 }] 0).length,
                 g := ((assignedTo [{ r := 0, g := 0, b := 0 }, { r := 204, g := 204, b := 204 },
                     { r := 51, g := 0, b := 0 }]
                   [{ r := 0, g := 0, b := 0 }, { r := 204, g := 204, b := 204 }] 0).map RGB.g).sum /
                   (assignedTo [{ r := 0, g := 0, b := 0 }, { r := 204, g := 204, b := 204 },
                     { r := 51, g := 0, b := 0 }]
                   [{ r := 0, g := 0, b := 0 }, { r := 204, g := 204, b := 204 }] 0).length,
                 b := ((assignedTo [{ r := 0, g := 0, b := 0 }, { r := 204, g := 204, b := 204 },
                     { r := 51, g := 0, b := 0 }]
                   [{ r := 0, g := 0, b := 0 }, { r := 204, g := 204, b := 204 }] 0).map RGB.b).sum /
                   (assignedTo [{ r := 0, g := 0, b := 0 }, { r := 204, g := 204, b := 204 },
                     { r := 51, g := 0, b := 0 }]
                   [{ r := 0, g := 0, b := 0 }, { r := 204, g := 204, b := 204 }] 0).length }) ∧
      ((assignedTo [{ r := 0, g := 0, b := 0 }, { r := 204, g := 204, b := 204 },
          { r := 51, g := 0, b := 0 }]
        [{ r := 0, g := 0, b := 0 }, { r := 204, g := 204, b := 204 }] 0).length = 0 →
        (kMeansIteration [{ r := 0, g := 0, b := 0 }, { r := 204, g := 204, b := 204 },
            { r := 51, g := 0, b := 0 }]
          [{ r := 0, g := 0, b := 0 }, { r := 204, g := 204, b := 204 }]).1[0]? =
          some { r := 0, g := 0, b := 0 }) :=
  centroid_update
    [{ r := 0, g := 0, b := 0 }, { r := 204, g := 204, b := 204 }, { r := 51, g := 0, b := 0 }]
    [{ r := 0, g := 0, b := 0 }, { r := 204, g := 204, b := 204 }] 0 { r := 0, g := 0, b := 0 }
    (by decide) (by decide)

/-! ## Accumulators against cluster lists -/

theorem channelSum_append_singleton (f : RGB → Nat) (cluster : List RGB) (p : RGB) :
    channelSum f (cluster ++ [p]) = channelSum f cluster + (f p : Int) := by
  unfold channelSum
  simp [List.map_append, List.sum_append]

theorem accumulatorOf_append (cluster : List RGB) (p : RGB) :
    accumulatorOf (cluster ++ [p]) = accumulate (accumulatorOf cluster) p := by
  unfold accumulatorOf accumulate
  simp only [channelSum_append_singleton, List.length_append, List.length_singleton]

theorem accumulateAt_map : ∀ (clusters : List (List RGB)) (j : Nat) (p : RGB),
    accumulateAt (clusters.map accumulatorOf) j p =
      (appendAt clusters j p).map accumulatorOf := by
  intro clusters
  induction clusters with
  | nil =>
    intro j p
    rfl
  | cons cl cls ih =>
    intro j p
    cases j with
    | zero => simp only [List.map_cons, accumulateAt, appendAt, accumulatorOf_append]
    | succ j => simp only [List.map_cons, accumulateAt, appendAt, ih j p]

theorem accumulateLoop_map (centroids : List RGB) :
    ∀ (ps : List RGB) (clusters : List (List RGB)),
      accumulateLoop centroids ps (clusters.map accumulatorOf) =
        (assignLoop centroids ps clusters).map accumulatorOf := by
  intro ps
  induction ps with
  | nil =>
    intro clusters
    rfl
  | cons p ps ih =>
    intro clusters
    simp only [accumulateLoop, assignLoop]
    rw [accumulateAt_map, ih]

theorem accumulatePixels_eq (pixels centroids : List RGB) :
    accumulatePixels pixels centroids =
      (assignPixels pixels centroids).map accumulatorOf := by
  unfold accumulatePixels assignPixels
  rw [← accumulateLoop_map, List.map_replicate]
  rfl

theorem recalcFromAccumulator_eq (c : RGB) (cluster : List RGB) :
    recalcFromAccumulator c (accumulatorOf cluster) = recalcCentroid c cluster := rfl

theorem recalcLoopAcc_map : ∀ (centroids : List RGB) (clusters : List (List RGB)),
    recalcLoopAcc centroids (clusters.map accumulatorOf) = recalcLoop centroids clusters := by
  intro centroids
  induction centroids with
  | nil =>
    intro clusters
    cases clusters <;> rfl
  | cons c cs ih =>
    intro clusters
    cases clusters with
    | nil => rfl
    | cons cl cls =>
      simp only [List.map_cons, recalcLoopAcc, recalcLoop, recalcFromAccumulator_eq, ih cls]

theorem kMeansIterationAcc_eq (pixels centroids : List RGB) :
    kMeansIterationAcc pixels centroids = kMeansIteration pixels centroids := by
  unfold kMeansIterationAcc kMeansIteration
  rw [accumulatePixels_eq, recalcLoopAcc_map]

theorem iterateLoopAcc_eq (pixels : List RGB) : ∀ (n : Nat) (centroids : List RGB),
    iterateLoopAcc pixels n centroids = iterateLoop pixels n centroids := by
  intro n
  induction n with
  | zero =>
    intro centroids
    rfl
  | succ n ih =>
    intro centroids
    simp only [iterateLoopAcc, iterateLoop, kMeansIterationAcc_eq, ih]

/-- C18: the update computed from per-centroid running accumulators (three channel sums
and one count, added to as each sample is assigned) gives, for every sample and every
centroid array, the same centroids and the same changed flag as the update computed from
the per-cluster pixel lists of the source, in every iteration, and hence the same centroid
array of the whole clustering; whenever kMeansClustering has a result, the clustering with
accumulators has the same. -/
theorem accumulators_equivalent (pixels centroids : List RGB) (k maxIterations : Nat) :
    kMeansIterationAcc pixels centroids = kMeansIteration pixels centroids ∧
      iterateLoopAcc pixels maxIterations centroids =
        iterateLoop pixels maxIterations centroids ∧
      kMeansClusteringAcc pixels k maxIterations = kMeansCentroids pixels k maxIterations ∧
      (∀ res, kMeansClustering pixels k maxIterations = some res →
        kMeansClusteringAcc pixels k maxIterations = some res) := by
  have h3 : kMeansClusteringAcc pixels k maxIterations =
      kMeansCentroids pixels k maxIterations := by
    unfold kMeansClusteringAcc kMeansCentroids
    simp only [iterateLoopAcc_eq]
  refine ⟨kMeansIterationAcc_eq pixels centroids, iterateLoopAcc_eq pixels maxIterations centroids,
    h3, ?_⟩
  intro res hres
  rw [h3]
  exact kMeansClustering_some pixels k maxIterations res hres

/-! ## Early stopping -/

theorem sorted_getD_mono (sorted : List RGB) (hs : sorted.Pairwise rgbLe) (a b : Nat)
    (hab : a ≤ b) (hb : b < sorted.length) :
    rgbLe (sorted.getD a { r := 0, g := 0, b := 0 }) (sorted.getD b { r := 0, g := 0, b := 0 }) := by
  have ha : a < sorted.length := by omega
  rw [List.getD_eq_getElem _ _ ha, List.getD_eq_getElem _ _ hb]
  rcases Nat.lt_or_eq_of_le hab with hlt | heq
  · exact List.pairwise_iff_getElem.mp hs a b ha hb hlt
  · subst heq
    exact rgbLe_refl _

theorem seedList_getElem? (sorted : List RGB) (n k i : Nat) (hi : i < k)
    (hlt : i * n / k < sorted.length) :
    (seedList sorted n k k 0)[i]? = sorted[i * n / k]? := by
  unfold seedList
  rw [List.getElem?_map, List.getElem?_range hi, Option.map_some', Nat.zero_add,
    List.getD_eq_getElem _ _ hlt, List.getElem?_eq_getElem hlt]

theorem seedList_sorted (sorted : List RGB) (n k : Nat) (hs : sorted.Pairwise rgbLe)
    (hlen : sorted.length = n) (hn : 1 ≤ n) : (seedList sorted n k k 0).Pairwise rgbLe := by
  unfold seedList
  rw [List.pairwise_map]
  refine List.Pairwise.imp_of_mem ?_ (List.pairwise_lt_range k)
  intro i j _ hj hij
  have hjk : j < k := List.mem_range.mp hj
  have hle : (0 + i) * n / k ≤ (0 + j) * n / k := by
    apply Nat.div_le_div_right
    apply Nat.mul_le_mul_right
    omega
  have hb : (0 + j) * n / k < sorted.length := by
    rw [hlen, Nat.zero_add]
    exact seedIndex_lt j n k hjk hn
  exact sorted_getD_mono sorted hs _ _ hle hb

/-- C13 (amended): for every sample of n >= 1 pixels and every k with (k - 1) * n within a
32-bit int (n < k included), the seeding stores k initial centroids; for every i below k
the int expression i * n / k is floor(i * n / k), it lies in [0, n), and centroid i is the
element at that index of the sorted sample (equal indices give equal seeds); the initial
centroids are non-decreasing in i. -/
theorem seeding_in_range (pixels : List RGB) (k : Nat) (hn : 1 ≤ pixels.length)
    (hfit : (k - 1) * pixels.length ≤ 2147483647) :
    ∃ seeds, seedLoop (qsort pixels) (pixels.length : Int) (k : Int) k 0 = some seeds ∧
      seeds.length = k ∧
      (∀ i, i < k →
        seedIndex (i : Int) (pixels.length : Int) (k : Int) =
            ((i * pixels.length / k : Nat) : Int) ∧
          i * pixels.length / k < pixels.length ∧
          seeds[i]? = (qsort pixels)[i * pixels.length / k]?) ∧
      seeds.Pairwise rgbLe := by
  have h := seedLoop_eq (qsort pixels) pixels.length k (qsort_length pixels) hn hfit k 0
    (by omega)
  have h0 : ((0 : Nat) : Int) = 0 := rfl
  rw [h0] at h
  refine ⟨_, h, seedList_length _ _ _ _ _, ?_, ?_⟩
  · intro i hi
    have hik : i ≤ k - 1 := by omega
    have hin : i * pixels.length ≤ 2147483647 :=
      le_trans (Nat.mul_le_mul_right pixels.length hik) hfit
    have hlt := seedIndex_lt i pixels.length k hi hn
    refine ⟨seedIndex_natCast i pixels.length k hin, hlt, ?_⟩
    exact seedList_getElem? (qsort pixels) pixels.length k i hi
      (by rw [qsort_length]; exact hlt)
  · exact seedList_sorted (qsort pixels) pixels.length k (qsort_sorted pixels)
      (qsort_length pixels) hn

theorem seeding_in_range_witness :
    ∃ seeds, seedLoop (qsort [{ r := 204, g := 0, b := 51 }, { r := 0, g := 153, b := 0 }])
        (([({ r := 204, g := 0, b := 51 } : RGB), { r := 0, g := 153, b := 0 }].length : Nat) : Int)
        ((3 : Nat) : Int) 3 0 = some seeds ∧
      seeds.length = 3 ∧
      (∀ i : Nat, i < 3 →
        seedIndex (i : Int)
            (([({ r := 204, g := 0, b := 51 } : RGB), { r := 0, g := 153, b := 0 }].length : Nat) : Int)
            ((3 : Nat) : Int) =
            ((i * [({ r := 204, g := 0, b := 51 } : RGB), { r := 0, g := 153, b := 0 }].length / 3 : Nat) : Int) ∧
          i * [({ r := 204, g := 0, b := 51 } : RGB), { r := 0, g := 153, b := 0 }].length / 3 <
            [({ r := 204, g := 0, b := 51 } : RGB), { r := 0, g := 153, b := 0 }].length ∧
          seeds[i]? = (qsort [{ r := 204, g := 0, b := 51 }, { r := 0, g := 153, b := 0 }])[
            i * [({ r := 204, g := 0, b := 51 } : RGB), { r := 0, g := 153, b := 0 }].length / 3]?) ∧
      seeds.Pairwise rgbLe :=
  seeding_in_range [{ r := 204, g := 0, b := 51 }, { r := 0, g := 153, b := 0 }] 3
    (by decide) (by decide)

/-- C13 fails as stated: for n = 2 and k = 2^30 + 1 the product i * n reaches 2^31 at
i = 2^30, the int index i * n / k is -1, outside [0, n), and the seeding loop reads outside
the sample instead of storing an initial centroid. -/
theorem seeding_in_range_counterexample :
    (1073741824 : Int) < 1073741825 ∧ seedIndex 1073741824 2 1073741825 = -1 ∧
      ¬ (0 ≤ seedIndex 1073741824 2 1073741825 ∧ seedIndex 1073741824 2 1073741825 < 2) ∧
      seedLoop (qsort [{ r := 153, g := 0, b := 0 }, { r := 153, g := 0, b := 0 }])
        2 1073741825 1073741825 0 = none := by
  have hread : readRGB (qsort [{ r := 153, g := 0, b := 0 }, { r := 153, g := 0, b := 0 }])
      (seedIndex (0 + ((1073741824 : Nat) : Int)) 2 1073741825) = none := by decide
  have hj : (1073741824 : Nat) < 1073741825 := by decide
  exact ⟨by decide, by decide, by decide,
    seedLoop_none _ 2 1073741825 1073741825 0 1073741824 hj hread⟩

/-! ## The bound check of the sampler -/

theorem strideChecks_succ (s n a : Nat) :
    strideChecks s (n + 1) a = (((3 * a : Nat) : Int), false) :: strideChecks s n (a + s) := by
  unfold strideChecks
  rw [List.range_succ_eq_map, List.map_cons, List.map_map]
  simp only [Nat.zero_mul, Nat.add_zero, List.cons.injEq, true_and]
  apply List.map_congr_left
  intro j _
  simp only [Function.comp_apply, Nat.succ_eq_add_one]
  have e : a + (j + 1) * s = a + s + j * s := by
    rw [Nat.add_mul]
    omega
  rw [e]

theorem sampleLoopChecks_eq (T s : Nat) (hT : 3 * T ≤ 2147483647) (hsT : s ≤ T) :
    ∀ (n a : Nat), a + n * s < T + s →
      sampleLoopChecks (T : Int) (s : Int) n (a : Int) = strideChecks s n a := by
  intro n
  induction n with
  | zero =>
    intro a _
    simp [sampleLoopChecks, strideChecks]
  | succ n ih =>
    intro a h
    have hmul : (n + 1) * s = n * s + s := Nat.succ_mul n s
    have haT : a < T := by
      rw [hmul] at h
      omega
    have hnext : a + s + n * s < T + s := by
      rw [hmul] at h
      omega
    have e1 : wrap32 ((a : Int) * 3) = ((3 * a : Nat) : Int) := by
      rw [wrap32_of_range _ (by omega) (by omega)]
      omega
    have e2 : wrap32 (((3 * a : Nat) : Int) + 2) = ((3 * a + 2 : Nat) : Int) := by
      rw [wrap32_of_range _ (by omega) (by omega)]
      omega
    have e3 : wrap32 ((T : Int) * 3) = ((3 * T : Nat) : Int) := by
      rw [wrap32_of_range _ (by omega) (by omega)]
      omega
    have e4 : wrap32 ((a : Int) + (s : Int)) = ((a + s : Nat) : Int) := by
      rw [wrap32_of_range _ (by omega) (by omega)]
      omega
    have hcond : (a : Int) < (T : Int) := by omega
    have hbreak : ¬ (((3 * a + 2 : Nat) : Int) ≥ ((3 * T : Nat) : Int)) := by omega
    rw [sampleLoopChecks]
    simp only [if_pos hcond, e1, e2, e3, if_neg hbreak, e4]
    rw [ih (a + s) hnext, strideChecks_succ]

theorem stepNat_eq_max (x : Nat) : (if 0 < x then x else 1) = max 1 x := by
  split_ifs <;> omega

theorem samplePixelsChecks_valid (width height : Int) (T : Nat) (hT : width * height = (T : Int))
    (hT1 : 1 ≤ T) (hfit : 3 * T ≤ 2147483647) :
    samplePixelsChecks width height =
      strideChecks (if 0 < T / 10000 then T / 10000 else 1)
        (T / (if 0 < T / 10000 then T / 10000 else 1)) 0 := by
  have hb := stepNat_bounds T hT1
  unfold samplePixelsChecks
  simp only [hT]
  rw [wrap32_of_range (T : Int) (by omega) (by omega), sampleStep_natCast, sampleSize_natCast,
    Int.toNat_ofNat]
  generalize (if 0 < T / 10000 then T / 10000 else 1) = s at hb
  have hle : T / s * s ≤ T := Nat.div_mul_le_self T s
  have h0 : ((0 : Nat) : Int) = 0 := rfl
  rw [← h0]
  exact sampleLoopChecks_eq T s hfit hb.2 (T / s) 0 (by omega)

/-- C12: on every image that passes validation with 3 * width * height within a 32-bit
int, with total = width * height and step = max(1, total / 10000): the loop body is
entered at the offsets 3 (j step) for j below total / step and the bound check is false at
each of them; every byte offset read, at most 3 (j step) + 2, is below 3 total; and the
sample has exactly total / step entries, at least one, entry j being quantizeColor of the
pixel at index j step. -/
theorem sampler_in_bounds (image_data : List Nat) (width height : Int)
    (hw : 0 < width) (hh : 0 < height) (hfit : width * height * 3 ≤ 2147483647)
    (hlen : (image_data.length : Int) = width * height * 3) :
    sampleStep (wrap32 (width * height)) = ((max 1 ((width * height).toNat / 10000) : Nat) : Int) ∧
      samplePixelsChecks width height =
        (List.range ((width * height).toNat / max 1 ((width * height).toNat / 10000))).map
          (fun j => (((3 * (j * max 1 ((width * height).toNat / 10000)) : Nat) : Int), false)) ∧
      (∀ j, j < (width * height).toNat / max 1 ((width * height).toNat / 10000) →
        3 * (j * max 1 ((width * height).toNat / 10000)) + 2 < 3 * (width * height).toNat) ∧
      1 ≤ (width * height).toNat / max 1 ((width * height).toNat / 10000) ∧
      samplePixels image_data width height =
        some ((List.range ((width * height).toNat / max 1 ((width * height).toNat / 10000))).map
          (fun j => quantizeColor
            (pixelAt image_data (j * max 1 ((width * height).toNat / 10000))) 5)) := by
  have hpos : 0 < width * height := Int.mul_pos hw hh
  have hv := samplePixels_valid image_data width height hw hh hfit hlen
  obtain ⟨T, hT⟩ : ∃ T : Nat, width * height = (T : Int) :=
    ⟨(width * height).toNat, (Int.toNat_of_nonneg (le_of_lt hpos)).symm⟩
  have hT1 : 1 ≤ T := by omega
  have hc := samplePixelsChecks_valid width height T hT hT1 (by omega)
  have hb := stepNat_bounds T hT1
  have hn := sampleSize_pos T hT1
  rw [hc, hv]
  rw [hT, sampleStep_natCast, sampleSize_natCast, Int.toNat_ofNat, Int.toNat_ofNat,
    wrap32_of_range (T : Int) (by omega) (by omega), sampleStep_natCast, ← stepNat_eq_max]
  generalize (if 0 < T / 10000 then T / 10000 else 1) = s at hb hn
  have hle : T / s * s ≤ T := Nat.div_mul_le_self T s
  refine ⟨rfl, ?_, ?_, hn, ?_⟩
  · unfold strideChecks
    simp only [Nat.zero_add]
  · intro j hj
    have h1 : (j + 1) * s ≤ T / s * s := Nat.mul_le_mul_right s hj
    have h3 : (j + 1) * s = j * s + s := Nat.succ_mul j s
    omega
  · unfold strideSample
    simp only [Nat.zero_add, Int.toNat_ofNat]

theorem sampler_in_bounds_witness :
    sampleStep (wrap32 (2 * 1)) = ((max 1 (((2 : Int) * 1).toNat / 10000) : Nat) : Int) ∧
      samplePixelsChecks 2 1 =
        (List.range (((2 : Int) * 1).toNat / max 1 (((2 : Int) * 1).toNat / 10000))).map
          (fun j => (((3 * (j * max 1 (((2 : Int) * 1).toNat / 10000)) : Nat) : Int), false)) ∧
      (∀ j, j < ((2 : Int) * 1).toNat / max 1 (((2 : Int) * 1).toNat / 10000) →
        3 * (j * max 1 (((2 : Int) * 1).toNat / 10000)) + 2 < 3 * ((2 : Int) * 1).toNat) ∧
      1 ≤ ((2 : Int) * 1).toNat / max 1 (((2 : Int) * 1).toNat / 10000) ∧
      samplePixels [200, 10, 10, 0, 255, 128] 2 1 =
        some ((List.range (((2 : Int) * 1).toNat / max 1 (((2 : Int) * 1).toNat / 10000))).map
          (fun j => quantizeColor
            (pixelAt [200, 10, 10, 0, 255, 128]
              (j * max 1 (((2 : Int) * 1).toNat / 10000))) 5)) :=
  sampler_in_bounds [200, 10, 10, 0, 255, 128] 2 1 (by decide) (by decide) (by decide)
    (by decide)

/-! ## Centroids stay within the range of the sample -/

theorem sum_ge_of_forall_ge (l : List Nat) (c : Nat) (h : ∀ x ∈ l, c ≤ x) :
    c * l.length ≤ l.sum := by
  induction l with
  | nil => simp
  | cons a t ih =>
    have ha : c ≤ a := h a (List.mem_cons_self a t)
    have ht := ih (fun x hx => h x (List.mem_cons_of_mem a hx))
    simp only [List.sum_cons, List.length_cons, Nat.mul_add, Nat.mul_one]
    omega

theorem sum_le_of_forall_le (l : List Nat) (c : Nat) (h : ∀ x ∈ l, x ≤ c) :
    l.sum ≤ c * l.length := by
  induction l with
  | nil => simp
  | cons a t ih =>
    have ha : a ≤ c := h a (List.mem_cons_self a t)
    have ht := ih (fun x hx => h x (List.mem_cons_of_mem a hx))
    simp only [List.sum_cons, List.length_cons, Nat.mul_add, Nat.mul_one]
    omega

/-- The truncated mean of a non-empty list of naturals lies between two of its members. -/
theorem mean_between (l : List Nat) (hne : 1 ≤ l.length) :
    (∃ a ∈ l, a ≤ l.sum / l.length) ∧ (∃ b ∈ l, l.sum / l.length ≤ b) := by
  have hpos : 0 < l.length := hne
  have hlow : l.sum / l.length * l.length ≤ l.sum := Nat.div_mul_le_self _ _
  have hhigh : l.sum < (l.sum / l.length + 1) * l.length := by
    have := Nat.lt_mul_div_succ l.sum hpos
    rw [Nat.mul_comm] at this
    exact this
  generalize l.sum / l.length = m at hlow hhigh ⊢
  constructor
  · by_contra hcon
    have hall : ∀ x ∈ l, m + 1 ≤ x := by
      intro x hx
      by_contra hx2
      exact hcon ⟨x, hx, by omega⟩
    have := sum_ge_of_forall_ge l _ hall
    omega
  · by_contra hcon
    have hall : ∀ x ∈ l, x ≤ m - 1 := by
      intro x hx
      by_contra hx2
      exact hcon ⟨x, hx, by omega⟩
    have hq : 1 ≤ m := by
      by_contra hq0
      obtain ⟨x, hx⟩ := List.exists_mem_of_length_pos hpos
      exact hcon ⟨x, hx, by omega⟩
    have hs := sum_le_of_forall_le l _ hall
    have e : (m - 1) * l.length + l.length = m * l.length := by
      have hm : m = (m - 1) + 1 := by omega
      conv_rhs => rw [hm, Nat.add_mul, Nat.one_mul]
    omega

theorem channelMean_inRange (f : RGB → Nat) (cluster sample : List RGB)
    (hne : 1 ≤ cluster.length) (hsub : ∀ p ∈ cluster, p ∈ sample) :
    ChannelInRange f sample (channelMean f cluster) := by
  have h := mean_between (cluster.map f) (by rw [List.length_map]; exact hne)
  rw [List.length_map] at h
  obtain ⟨⟨a, ha, hale⟩, ⟨b, hb, hble⟩⟩ := h
  obtain ⟨p, hp, rfl⟩ := List.mem_map.mp ha
  obtain ⟨q, hq, rfl⟩ := List.mem_map.mp hb
  exact ⟨⟨p, hsub p hp, hale⟩, ⟨q, hsub q hq, hble⟩⟩

theorem newCentroid_inRange (cluster sample : List RGB) (hne : 1 ≤ cluster.length)
    (hsub : ∀ p ∈ cluster, p ∈ sample) (hb : ∀ p ∈ sample, IsByteRGB p) :
    CentroidInRange sample (newCentroid cluster) := by
  rw [newCentroid_eq_mean cluster hne (fun p hp => hb p (hsub p hp))]
  exact ⟨channelMean_inRange _ _ _ hne hsub, channelMean_inRange _ _ _ hne hsub,
    channelMean_inRange _ _ _ hne hsub⟩

theorem centroidInRange_of_mem (sample : List RGB) (c : RGB) (h : c ∈ sample) :
    CentroidInRange sample c :=
  ⟨⟨⟨c, h, le_refl _⟩, ⟨c, h, le_refl _⟩⟩, ⟨⟨c, h, le_refl _⟩, ⟨c, h, le_refl _⟩⟩,
    ⟨⟨c, h, le_refl _⟩, ⟨c, h, le_refl _⟩⟩⟩

/-- Every centroid after the recalculation loop is a centroid from before it or the
newCentroid of a non-empty cluster. -/
theorem recalcLoop_mem : ∀ (centroids : List RGB) (clusters : List (List RGB)) (c : RGB),
    c ∈ (recalcLoop centroids clusters).1 →
      c ∈ centroids ∨ ∃ cl ∈ clusters, 1 ≤ cl.length ∧ c = newCentroid cl := by
  intro centroids
  induction centroids with
  | nil =>
    intro clusters c h
    cases clusters <;> simp [recalcLoop] at h
  | cons c0 cs ih =>
    intro clusters c h
    cases clusters with
    | nil =>
      left
      simpa [recalcLoop] using h
    | cons cl cls =>
      simp only [recalcLoop, List.mem_cons] at h
      rcases h with h | h
      · by_cases hne : 1 ≤ cl.length
        · right
          refine ⟨cl, List.mem_cons_self cl cls, hne, ?_⟩
          rw [h, recalcCentroid_fst c0 cl hne]
        · left
          have hnil : cl = [] := List.length_eq_zero.mp (by omega)
          rw [h, recalcCentroid_of_nil c0 cl hnil]
          exact List.mem_cons_self c0 cs
      · rcases ih cls c h with h1 | ⟨cl1, hcl1, hne, heq⟩
        · left
          exact List.mem_cons_of_mem c0 h1
        · right
          exact ⟨cl1, List.mem_cons_of_mem cl hcl1, hne, heq⟩

/-- Every pixel of every cluster after the assignment step is a pixel of the sample. -/
theorem assignPixels_subset (pixels centroids : List RGB) (cl : List RGB)
    (hcl : cl ∈ assignPixels pixels centroids) : ∀ p ∈ cl, p ∈ pixels := by
  obtain ⟨i, hi, hget⟩ := List.getElem_of_mem hcl
  rw [assignPixels_length] at hi
  have h2 := assignPixels_getElem? pixels centroids i hi
  rw [List.getElem?_eq_getElem (by rw [assignPixels_length]; exact hi), hget,
    Option.some.injEq] at h2
  intro p hp
  rw [h2] at hp
  unfold assignedTo at hp
  exact (List.mem_filter.mp hp).1

theorem kMeansIteration_inRange (pixels centroids : List RGB)
    (hb : ∀ p ∈ pixels, IsByteRGB p) (hinv : ∀ c ∈ centroids, CentroidInRange pixels c) :
    ∀ c ∈ (kMeansIteration pixels centroids).1, CentroidInRange pixels c := by
  intro c hc
  unfold kMeansIteration at hc
  rcases recalcLoop_mem centroids _ c hc with h | ⟨cl, hcl, hne, heq⟩
  · exact hinv c h
  · rw [heq]
    exact newCentroid_inRange cl pixels hne (assignPixels_subset pixels centroids cl hcl) hb

theorem iterateLoop_inRange (pixels : List RGB) (hb : ∀ p ∈ pixels, IsByteRGB p) :
    ∀ (n : Nat) (centroids : List RGB), (∀ c ∈ centroids, CentroidInRange pixels c) →
      ∀ c ∈ iterateLoop pixels n centroids, CentroidInRange pixels c := by
  intro n
  induction n with
  | zero =>
    intro centroids hinv
    exact hinv
  | succ n ih =>
    intro centroids hinv
    have hstep := kMeansIteration_inRange pixels centroids hb hinv
    rw [iterateLoop]
    split_ifs
    · exact ih _ hstep
    · exact hstep

theorem seedList_subset (sorted : List RGB) (n k : Nat) (hlen : sorted.length = n)
    (hn : 1 ≤ n) : ∀ c ∈ seedList sorted n k k 0, c ∈ sorted := by
  intro c hc
  unfold seedList at hc
  obtain ⟨j, hj, rfl⟩ := List.mem_map.mp hc
  have hlt : (0 + j) * n / k < sorted.length := by
    rw [hlen, Nat.zero_add]
    exact seedIndex_lt j n k (List.mem_range.mp hj) hn
  rw [List.getD_eq_getElem _ _ hlt]
  exact List.getElem_mem _

theorem centroidInRange_of_perm (xs ys : List RGB) (c : RGB) (h : xs.Perm ys)
    (hc : CentroidInRange xs c) : CentroidInRange ys c := by
  obtain ⟨⟨⟨p1, hp1, h1⟩, ⟨q1, hq1, h2⟩⟩, ⟨⟨p2, hp2, h3⟩, ⟨q2, hq2, h4⟩⟩,
    ⟨⟨p3, hp3, h5⟩, ⟨q3, hq3, h6⟩⟩⟩ := hc
  exact ⟨⟨⟨p1, h.mem_iff.mp hp1, h1⟩, ⟨q1, h.mem_iff.mp hq1, h2⟩⟩,
    ⟨⟨p2, h.mem_iff.mp hp2, h3⟩, ⟨q2, h.mem_iff.mp hq2, h4⟩⟩,
    ⟨⟨p3, h.mem_iff.mp hp3, h5⟩, ⟨q3, h.mem_iff.mp hq3, h6⟩⟩⟩

/-- The centroids of the clustering of a non-empty sample of uint8_t pixels lie, channel by
channel, within the range of the sample. -/
theorem clusterOf_inRange (pixels : List RGB) (k m : Nat) (hn : 1 ≤ pixels.length)
    (hb : ∀ p ∈ pixels, IsByteRGB p) :
    ∀ c ∈ clusterOf pixels k m, CentroidInRange pixels c := by
  intro c hc
  unfold clusterOf at hc
  have hc2 := (qsort_perm _).mem_iff.mp hc
  have hbq : ∀ p ∈ qsort pixels, IsByteRGB p :=
    fun p hp => hb p ((qsort_perm pixels).mem_iff.mp hp)
  have hseeds : ∀ s ∈ seedList (qsort pixels) pixels.length k k 0,
      CentroidInRange (qsort pixels) s :=
    fun s hs => centroidInRange_of_mem _ s
      (seedList_subset (qsort pixels) pixels.length k (qsort_length pixels) hn s hs)
  exact centroidInRange_of_perm _ _ c (qsort_perm pixels)
    (iterateLoop_inRange (qsort pixels) hbq m _ hseeds c hc2)

theorem getD_byte (image_data : List Nat) (hbytes : ∀ b ∈ image_data, b < 256) (i : Nat) :
    image_data.getD i 0 < 256 := by
  by_cases h : i < image_data.length
  · rw [List.getD_eq_getElem _ _ h]
    exact hbytes _ (List.getElem_mem _)
  · rw [List.getD_eq_default _ _ (by omega)]
    decide

theorem quantizeColor_le_204 (c : RGB) (hc : IsByteRGB c) :
    (quantizeColor c 5).r ≤ 204 ∧ (quantizeColor c 5).g ≤ 204 ∧ (quantizeColor c 5).b ≤ 204 := by
  unfold quantizeColor
  simp only []
  rw [quantizeChannel_five c.r hc.1, quantizeChannel_five c.g hc.2.1,
    quantizeChannel_five c.b hc.2.2]
  have h1 := hc.1
  have h2 := hc.2.1
  have h3 := hc.2.2
  refine ⟨?_, ?_, ?_⟩ <;> omega

/-- Every sample of an image of bytes has channels at most 204. -/
theorem sampleOf_le_204 (image_data : List Nat) (width height : Int)
    (hbytes : ∀ b ∈ image_data, b < 256) :
    ∀ p ∈ sampleOf image_data width height, p.r ≤ 204 ∧ p.g ≤ 204 ∧ p.b ≤ 204 := by
  intro p hp
  unfold sampleOf strideSample at hp
  obtain ⟨j, _, rfl⟩ := List.mem_map.mp hp
  apply quantizeColor_le_204
  exact ⟨getD_byte _ hbytes _, getD_byte _ hbytes _, getD_byte _ hbytes _⟩

/-- On well-formed input the arithmetic of a call keeps every channel of every output
colour between the least and the greatest value of that channel over the quantized
samples, and at most 204. -/
theorem extractCentroids_in_sample_range (image_data : List Nat) (width height : Int)
    (out : List Color) (num_colors : Int) (hw : 0 < width) (hh : 0 < height)
    (hfit : width * height * 3 ≤ 2147483647)
    (hlen : (image_data.length : Int) = width * height * 3)
    (hbytes : ∀ b ∈ image_data, b < 256)
    (hk : 0 < num_colors) (hout : out.length = num_colors.toNat)
    (hseed : (num_colors - 1) * sampleSize (width * height) ≤ 2147483647) :
    ∃ pixels res, samplePixels image_data width height = some pixels ∧
      extractCentroids image_data width height out num_colors = some res ∧
      res.length = num_colors.toNat ∧
      ∀ c ∈ res,
        ((∃ p ∈ pixels, p.r ≤ c.r) ∧ (∃ q ∈ pixels, c.r ≤ q.r)) ∧
        ((∃ p ∈ pixels, p.g ≤ c.g) ∧ (∃ q ∈ pixels, c.g ≤ q.g)) ∧
        ((∃ p ∈ pixels, p.b ≤ c.b) ∧ (∃ q ∈ pixels, c.b ≤ q.b)) ∧
        c.r ≤ 204 ∧ c.g ≤ 204 ∧ c.b ≤ 204 := by
  have hs := samplePixels_valid image_data width height hw hh hfit hlen
  have hv := extractCentroids_valid image_data width height out num_colors hw hh hfit hlen hk
    hout hseed
  obtain ⟨hn, _⟩ := sampleOf_length_pos image_data width height hw hh
  refine ⟨sampleOf image_data width height, _, hs, hv, ?_, ?_⟩
  · rw [List.length_map, clusterOf_length]
  · intro c hc
    obtain ⟨d, hd, rfl⟩ := List.mem_map.mp hc
    have hr := clusterOf_inRange (sampleOf image_data width height) num_colors.toNat 10 hn
      (sampleOf_isByte image_data width height) d hd
    have h204 := sampleOf_le_204 image_data width height hbytes
    obtain ⟨hrr, hrg, hrb⟩ := hr
    obtain ⟨qr, hqr, hler⟩ := hrr.2
    obtain ⟨qg, hqg, hleg⟩ := hrg.2
    obtain ⟨qb, hqb, hleb⟩ := hrb.2
    refine ⟨hrr, hrg, hrb, ?_, ?_, ?_⟩
    · exact le_trans hler (h204 qr hqr).1
    · exact le_trans hleg (h204 qg hqg).2.1
    · exact le_trans hleb (h204 qb hqb).2.2

/-! ## Calls that pass validation -/

/-- C1 at a 2 x 2 image with num_colors = 3: the arithmetic of the call gives three output
colours in lexicographic order, but the call itself has no defined result, because the
first pass of free(clusters[i]) reads entries of the malloc'd array that were never
stored. -/
theorem extract_sorted_failing_input :
    extract_dominant_colors (some [0, 0, 0, 255, 255, 255, 100, 100, 100, 30, 200, 77]) 2 2
        (some [black, black, black]) 3 = none ∧
      freeClusters (mallocClusters 3) = none ∧
      ∃ res, extractCentroids [0, 0, 0, 255, 255, 255, 100, 100, 100, 30, 200, 77] 2 2
          [black, black, black] 3 = some res ∧
        res.length = 3 ∧ res.Pairwise colorLexLe :=
  ⟨extract_undefined _ 2 2 _ 3 (by decide) (by decide) (by decide),
    freeClusters_malloc 3 (by decide),
    extractCentroids_sorted [0, 0, 0, 255, 255, 255, 100, 100, 100, 30, 200, 77] 2 2
      [black, black, black] 3 (by decide) (by decide) (by decide) (by decide) (by decide)
      (by decide) (by decide)⟩

/-- C3 at the 4 x 4 image of (200, 10, 10) with num_colors = 2: the arithmetic of the call
gives [(153, 0, 0), (153, 0, 0)], but the call itself has no defined result, because the
first pass of free(clusters[i]) reads entries of the malloc'd array that were never
stored. -/
theorem extract_uniform_failing_input :
    extract_dominant_colors
        (some [200, 10, 10, 200, 10, 10, 200, 10, 10, 200, 10, 10,
               200, 10, 10, 200, 10, 10, 200, 10, 10, 200, 10, 10,
               200, 10, 10, 200, 10, 10, 200, 10, 10, 200, 10, 10,
               200, 10, 10, 200, 10, 10, 200, 10, 10, 200, 10, 10])
        4 4 (some [black, black]) 2 = none ∧
      freeClusters (mallocClusters 2) = none ∧
      extractCentroids
        [200, 10, 10, 200, 10, 10, 200, 10, 10, 200, 10, 10,
         200, 10, 10, 200, 10, 10, 200, 10, 10, 200, 10, 10,
         200, 10, 10, 200, 10, 10, 200, 10, 10, 200, 10, 10,
         200, 10, 10, 200, 10, 10, 200, 10, 10, 200, 10, 10]
        4 4 [black, black] 2 =
        some [{ r := 153, g := 0, b := 0 }, { r := 153, g := 0, b := 0 }] := by
  refine ⟨extract_undefined _ 4 4 _ 2 (by decide) (by decide) (by decide),
    freeClusters_malloc 2 (by decide), ?_⟩
  rw [extractCentroids_uniform _ 4 4 [black, black] 2 { r := 200, g := 10, b := 10 }
    (by decide) (by decide) (by decide) (by decide) (by decide) (by decide) (by decide)
    (by decide)]
  decide

/-- C4 at a 2 x 2 image with num_colors = 1: the arithmetic of the call gives the
truncated channel means (51, 25, 25) of the four quantized samples, but the call itself has
no defined result, because the first pass of free(clusters[i]) reads clusters[0], which was
never stored. -/
theorem extract_one_color_failing_input :
    extract_dominant_colors (some [10, 20, 30, 40, 50, 60, 70, 80, 90, 200, 100, 0]) 2 2
        (some [black]) 1 = none ∧
      freeClusters (mallocClusters 1) = none ∧
      samplePixels [10, 20, 30, 40, 50, 60, 70, 80, 90, 200, 100, 0] 2 2 =
        some [{ r := 0, g := 0, b := 0 }, { r := 0, g := 0, b := 51 },
          { r := 51, g := 51, b := 51 }, { r := 153, g := 51, b := 0 }] ∧
      extractCentroids [10, 20, 30, 40, 50, 60, 70, 80, 90, 200, 100, 0] 2 2 [black] 1 =
        some [{ r := 51, g := 25, b := 25 }] := by
  have hs : samplePixels [10, 20, 30, 40, 50, 60, 70, 80, 90, 200, 100, 0] 2 2 =
      some [{ r := 0, g := 0, b := 0 }, { r := 0, g := 0, b := 51 },
        { r := 51, g := 51, b := 51 }, { r := 153, g := 51, b := 0 }] := by decide
  refine ⟨extract_undefined _ 2 2 _ 1 (by decide) (by decide) (by decide),
    freeClusters_malloc 1 (by decide), hs, ?_⟩
  obtain ⟨pixels, hp, _, hres⟩ := extractCentroids_one_color
    [10, 20, 30, 40, 50, 60, 70, 80, 90, 200, 100, 0] 2 2 [black]
    (by decide) (by decide) (by decide) (by decide) (by decide)
  have e : pixels = [{ r := 0, g := 0, b := 0 }, { r := 0, g := 0, b := 51 },
      { r := 51, g := 51, b := 51 }, { r := 153, g := 51, b := 0 }] :=
    Option.some.inj (hp.symm.trans hs)
  rw [hres, e]
  decide

/-- C9 at a 2 x 2 image with num_colors = 3: the arithmetic of the call is the same for two
output arrays with different contents, but the call itself has no defined result, because
the first pass of free(clusters[i]) reads entries that the call never stored: they hold
what the heap held before, and a pass over stored entries would be defined. -/
theorem extract_deterministic_failing_input :
    extract_dominant_colors (some [0, 0, 0, 255, 255, 255, 100, 100, 100, 30, 200, 77]) 2 2
        (some [black, black, black]) 3 = none ∧
      extract_dominant_colors (some [0, 0, 0, 255, 255, 255, 100, 100, 100, 30, 200, 77]) 2 2
        (some [{ r := 1, g := 2, b := 3 }, { r := 9, g := 9, b := 9 }, { r := 255, g := 0, b := 7 }])
        3 = none ∧
      freeClusters (mallocClusters 3) = none ∧
      freeClusters [some [], some [], some []] = some [[], [], []] ∧
      extractCentroids [0, 0, 0, 255, 255, 255, 100, 100, 100, 30, 200, 77] 2 2
          [black, black, black] 3 =
        extractCentroids [0, 0, 0, 255, 255, 255, 100, 100, 100, 30, 200, 77] 2 2
          [{ r := 1, g := 2, b := 3 }, { r := 9, g := 9, b := 9 }, { r := 255, g := 0, b := 7 }]
          3 :=
  ⟨extract_undefined _ 2 2 _ 3 (by decide) (by decide) (by decide),
    extract_undefined _ 2 2 _ 3 (by decide) (by decide) (by decide),
    freeClusters_malloc 3 (by decide), rfl,
    extractCentroids_independent _ 2 2 3 _ _ (by decide) (by decide)⟩

/-- C16 at a 3 x 1 image with num_colors = 2: the arithmetic of the call keeps every
output channel within the range of that channel over the quantized samples and at most
204, but the call itself has no defined result, because the first pass of
free(clusters[i]) reads entries of the malloc'd array that were never stored. -/
theorem output_in_sample_range_failing_input :
    extract_dominant_colors (some [10, 20, 30, 40, 50, 60, 70, 80, 90]) 3 1
        (some [black, black]) 2 = none ∧
      freeClusters (mallocClusters 2) = none ∧
      ∃ pixels res, samplePixels [10, 20, 30, 40, 50, 60, 70, 80, 90] 3 1 = some pixels ∧
        extractCentroids [10, 20, 30, 40, 50, 60, 70, 80, 90] 3 1 [black, black] 2 = some res ∧
        res.length = 2 ∧
        ∀ c ∈ res,
          ((∃ p ∈ pixels, p.r ≤ c.r) ∧ (∃ q ∈ pixels, c.r ≤ q.r)) ∧
          ((∃ p ∈ pixels, p.g ≤ c.g) ∧ (∃ q ∈ pixels, c.g ≤ q.g)) ∧
          ((∃ p ∈ pixels, p.b ≤ c.b) ∧ (∃ q ∈ pixels, c.b ≤ q.b)) ∧
          c.r ≤ 204 ∧ c.g ≤ 204 ∧ c.b ≤ 204 :=
  ⟨extract_undefined _ 3 1 _ 2 (by decide) (by decide) (by decide),
    freeClusters_malloc 2 (by decide),
    extractCentroids_in_sample_range [10, 20, 30, 40, 50, 60, 70, 80, 90] 3 1 [black, black] 2
      (by decide) (by decide) (by decide) (by decide) (by decide) (by decide) (by decide)
      (by decide)⟩

end ColorExtractor
